import Mathlib

/-! Block-mask memory allocator (`allocators/blockmask/memoryallocator.cpp`).

A shallow embedding of `MemoryAllocator` and a verification of its contract.

Target data model: LP64 (`sizeof(std::size_t) = 8`, `int` is a 32-bit
two-complement integer, `std::size_t` is 64-bit unsigned).

* The two mask arrays `freeBlocksMask` and `finalBlocksMask` are maps from a
  word index to the value of that word.  Both arrays have
  `BlockCount / sizeof(mask_type)` elements; indexing one of them outside that
  range is undefined behaviour in C++ and is reported by the embedding as the
  outcome `Outcome.outOfBounds`, carrying the offending block index.
* Pointers are either null or the address of `memoryPool[offset]` for an
  integer `offset` (offsets outside the pool stand for addresses before or
  behind it).
-/

namespace Blockmask

/-! ## Constants of `memoryallocator.hpp` -/

/-- The value of `sizeof(block_type)`, where `block_type` is `std::size_t`. -/
def sizeofBlockType : Nat := 8

/-- The value of `sizeof(mask_type)`, where `mask_type` is `std::size_t`. -/
def sizeofMaskType : Nat := 8

/-- Tunable constant `MemoryPoolSize = 256 * 1024`. -/
def MemoryPoolSize : Nat := 256 * 1024

/-- Calculated constant `BlockCount = MemoryPoolSize / sizeof(block_type)`. -/
def BlockCount : Nat := MemoryPoolSize / sizeofBlockType

/-- Number of elements of each mask array, `BlockCount / sizeof(mask_type)`. -/
def MaskWords : Nat := BlockCount / sizeofMaskType

/-! ## Machine integers -/

/-- Conversion of an integer to `int`: 32-bit two-complement wrap-around. -/
def toInt (n : Int) : Int := (n + 2147483648) % 4294967296 - 2147483648

/-- Conversion of an integer to `std::size_t`: reduction modulo `2 ^ 64`. -/
def toSizeT (n : Int) : Nat := (n % 18446744073709551616).toNat

/-- Bitwise `&` of two `int` values, computed on their 32-bit patterns. -/
def andInt (a b : Int) : Int :=
  toInt (Int.ofNat ((a % 4294967296).toNat &&& (b % 4294967296).toNat))

/-- Bitwise `~` of a `mask_type` value (64-bit complement). -/
def notMask (x : Nat) : Nat := 18446744073709551615 - x % 18446744073709551616

/-! ## Data model -/

/-- A mask array: word index to word value. -/
abbrev Mask := Nat → Nat

/-- Store `v` at word `w` of a mask array. -/
def Mask.store (m : Mask) (w v : Nat) : Mask := fun k => if k = w then v else m k

/-- The bitmap state of a `MemoryAllocator` object. -/
structure MemoryAllocator where
  freeBlocksMask : Mask
  finalBlocksMask : Mask

/-- A pointer as seen by the allocator: null, or `&memoryPool[offset]`. -/
inductive Ptr where
  | null : Ptr
  | block (offset : Int) : Ptr
  deriving DecidableEq, Repr

/-- Result of running a piece of the allocator. -/
inductive Outcome (α : Type) where
  /-- Normal completion with a value. -/
  | ok (val : α) : Outcome α
  /-- A mask array was indexed outside its bounds for block `index`. -/
  | outOfBounds (index : Int) : Outcome α
  /-- The iteration budget of the embedding of a `while` loop ran out. -/
  | outOfFuel : Outcome α
  deriving DecidableEq

/-! ## Bitmap primitives (`memoryallocator.cpp`, lines 68-87) -/

/-- Source `isBlockSet(int index, mask_type masks[])`. -/
def isBlockSet (index : Int) (masks : Mask) : Outcome Bool :=
  let shift := toSizeT index &&& (sizeofMaskType - 1)
  let word := toSizeT index / sizeofMaskType
  if word < MaskWords then
    .ok (((masks word >>> shift) &&& 1) != 0)
  else .outOfBounds index

/-- Source `setBlock(int index, mask_type masks[])`. -/
def setBlock (index : Int) (masks : Mask) : Outcome Mask :=
  let shift := toSizeT index &&& (sizeofMaskType - 1)
  let word := toSizeT index / sizeofMaskType
  if word < MaskWords then
    .ok (masks.store word (masks word ||| (1 <<< shift)))
  else .outOfBounds index

/-- Source `clearBlock(int index, mask_type masks[])`. -/
def clearBlock (index : Int) (masks : Mask) : Outcome Mask :=
  let shift := toSizeT index &&& (sizeofMaskType - 1)
  let word := toSizeT index / sizeofMaskType
  if word < MaskWords then
    .ok (masks.store word (masks word &&& notMask (1 <<< shift)))
  else .outOfBounds index

/-- Source `roundUpToPower2(int value, int multiple)`:
`(value + multiple - 1) & -multiple`. -/
def roundUpToPower2 (value multiple : Int) : Int :=
  andInt (toInt (value + multiple - 1)) (toInt (-multiple))

/-! ## Construction -/

/-- Source constructor: every free word is `-1` (all ones), every final word `0`. -/
def new : MemoryAllocator where
  freeBlocksMask := fun _ => 18446744073709551615
  finalBlocksMask := fun _ => 0

/-! ## `Allocate` (lines 111-178) -/

/-- The value of `blocksNeeded` computed at line 117: the `int` result of
`roundUpToPower2` is converted to `std::size_t`, divided, and converted back to
`int`. -/
def blocksNeeded (size : Nat) : Int :=
  toInt (Int.ofNat
    (toSizeT (roundUpToPower2 (toInt (Int.ofNat size)) (Int.ofNat sizeofBlockType))
      / sizeofBlockType))

/-- The search loop of lines 132-153.  The first argument is the number of
iterations left, `BlockCount - index`; the result is the pair
`(blocksFound, freeIndex)` when the loop is left. -/
def scanLoop (free : Mask) (needed : Int) : Nat → Int → Int → Int → Outcome (Int × Int)
  | 0, _, blocksFound, freeIndex => .ok (blocksFound, freeIndex)
  | left + 1, index, blocksFound, freeIndex =>
    match isBlockSet index free with
    | .ok true =>
      let freeIndex1 := if blocksFound = 0 then index else freeIndex
      let blocksFound1 := blocksFound + 1
      if blocksFound1 = needed then .ok (blocksFound1, freeIndex1)
      else scanLoop free needed left (index + 1) blocksFound1 freeIndex1
    | .ok false => scanLoop free needed left (index + 1) 0 (-1)
    | .outOfBounds i => .outOfBounds i
    | .outOfFuel => .outOfFuel

/-- The marking loop of lines 165-168; the first argument is the number of
iterations left, `endIndex - i`. -/
def clearLoop : Nat → Int → Mask → Outcome Mask
  | 0, _, free => .ok free
  | left + 1, i, free =>
    match clearBlock i free with
    | .ok free1 => clearLoop left (i + 1) free1
    | .outOfBounds k => .outOfBounds k
    | .outOfFuel => .outOfFuel

/-- Source `MemoryAllocator::Allocate(const size_t size)`. -/
def Allocate (a : MemoryAllocator) (size : Nat) : Outcome (MemoryAllocator × Ptr) :=
  let needed := blocksNeeded size
  if needed > Int.ofNat BlockCount then .ok (a, Ptr.null)
  else
    match scanLoop a.freeBlocksMask needed BlockCount 0 0 (-1) with
    | .ok (_, freeIndex) =>
      if freeIndex > -1 then
        let endIndex := freeIndex + needed
        match clearLoop (endIndex - freeIndex).toNat freeIndex a.freeBlocksMask with
        | .ok free1 =>
          match setBlock (endIndex - 1) a.finalBlocksMask with
          | .ok final1 => .ok (⟨free1, final1⟩, Ptr.block freeIndex)
          | .outOfBounds k => .outOfBounds k
          | .outOfFuel => .outOfFuel
        | .outOfBounds k => .outOfBounds k
        | .outOfFuel => .outOfFuel
      else .ok (a, Ptr.null)
    | .outOfBounds k => .outOfBounds k
    | .outOfFuel => .outOfFuel

/-! ## `Free` (lines 180-206) -/

/-- The boundary walk of lines 195-198.  The first argument bounds the number
of loop tests; the result is the free mask and the value of `blockIndex` when
the loop is left. -/
def freeLoop (final : Mask) : Nat → Int → Mask → Outcome (Mask × Int)
  | 0, _, _ => .outOfFuel
  | fuel + 1, blockIndex, free =>
    match isBlockSet blockIndex final with
    | .ok true => .ok (free, blockIndex)
    | .ok false =>
      match setBlock blockIndex free with
      | .ok free1 => freeLoop final fuel (blockIndex + 1) free1
      | .outOfBounds k => .outOfBounds k
      | .outOfFuel => .outOfFuel
    | .outOfBounds k => .outOfBounds k
    | .outOfFuel => .outOfFuel

/-- Source `MemoryAllocator::Free(const void* address)`.  The range test of
lines 184-185 compares against `&memoryPool[0]` and `&memoryPool[MemoryPoolSize]`;
a null pointer lies below every object and fails it. -/
def Free (a : MemoryAllocator) (address : Ptr) : Outcome MemoryAllocator :=
  match address with
  | Ptr.null => .ok a
  | Ptr.block offset =>
    if 0 ≤ offset ∧ offset < Int.ofNat MemoryPoolSize then
      let blockIndex := toInt offset
      match freeLoop a.finalBlocksMask (BlockCount + 1) blockIndex a.freeBlocksMask with
      | .ok (free1, blockIndex1) =>
        match clearBlock blockIndex1 a.finalBlocksMask with
        | .ok final1 => .ok ⟨free1, final1⟩
        | .outOfBounds k => .outOfBounds k
        | .outOfFuel => .outOfFuel
      | .outOfBounds k => .outOfBounds k
      | .outOfFuel => .outOfFuel
    else .ok a

/-! ## Specification vocabulary -/

/-- Bit `i` of a packed bitmap, as `isBlockSet` reads it. -/
def Mask.bit (m : Mask) (i : Nat) : Bool := (m (i / 8)).testBit (i % 8)

/-- The bitmap with bit `i` set, as `setBlock` writes it. -/
def Mask.setBit (m : Mask) (i : Nat) : Mask :=
  m.store (i / 8) (m (i / 8) ||| 1 <<< (i % 8))

/-- The bitmap with bit `i` cleared, as `clearBlock` writes it. -/
def Mask.clearBit (m : Mask) (i : Nat) : Mask :=
  m.store (i / 8) (m (i / 8) &&& notMask (1 <<< (i % 8)))

/-- All blocks of `[j, j + n)` have their bit set in `m`. -/
def runFree (m : Mask) (j n : Nat) : Prop := ∀ k, j ≤ k → k < j + n → m.bit k = true

/-- Loop invariant of the search loop before the test of block `index`, for a
request of `n ≥ 1` blocks. -/
structure ScanInv (m : Mask) (n index bf : Nat) (fi : Int) : Prop where
  lt : bf < n
  le : bf ≤ index
  zero : bf = 0 → fi = -1
  pos : 0 < bf → fi = ((index - bf : Nat) : Int)
  run : runFree m (index - bf) bf
  stop : bf < index → m.bit (index - bf - 1) = false
  least : ∀ j, j < index - bf → ¬ runFree m j n

/-- What the search loop has established when it is left: either a first
fitting run was found, or no run fits and `bf` is the length of the free run
that ends the pool. -/
def ScanPost (m : Mask) (n : Nat) (res : Int × Int) : Prop :=
  (res.1 = (n : Int) ∧ ∃ i : Nat, res.2 = (i : Int) ∧ i + n ≤ BlockCount ∧ runFree m i n ∧
      ∀ j, j < i → ¬ runFree m j n) ∨
  (∃ bf : Nat, res.1 = (bf : Int) ∧ bf < n ∧ bf ≤ BlockCount ∧
      (∀ j, j + n ≤ BlockCount → ¬ runFree m j n) ∧
      (bf = 0 → res.2 = -1) ∧ (0 < bf → res.2 = ((BlockCount - bf : Nat) : Int)) ∧
      runFree m (BlockCount - bf) bf ∧
      (bf < BlockCount → m.bit (BlockCount - bf - 1) = false))

/-- The number of blocks a request of `size` bytes needs, in the words of the
specification: `ceil(size / blockWidth)`. -/
def ceilBlocks (size : Nat) : Nat := (size + sizeofBlockType - 1) / sizeofBlockType

/-- Block `k` is marked free: `isBlockSet(k, freeBlocksMask)` returns true. -/
def MemoryAllocator.isFree (a : MemoryAllocator) (k : Nat) : Prop :=
  isBlockSet (k : Int) a.freeBlocksMask = .ok true

/-- Block `k` is marked final: `isBlockSet(k, finalBlocksMask)` returns true. -/
def MemoryAllocator.isFinal (a : MemoryAllocator) (k : Nat) : Prop :=
  isBlockSet (k : Int) a.finalBlocksMask = .ok true

instance (a : MemoryAllocator) (k : Nat) : Decidable (a.isFree k) := by
  unfold MemoryAllocator.isFree; infer_instance

instance (a : MemoryAllocator) (k : Nat) : Decidable (a.isFinal k) := by
  unfold MemoryAllocator.isFinal; infer_instance

/-- The first `n` bits of a bitmap, block 0 first, read through `isBlockSet`. -/
def bitsOf (m : Mask) (n : Nat) : List Bool :=
  (List.range n).map fun k => decide (isBlockSet (k : Int) m = .ok true)

/-! ## Reachable states and counting -/

/-- States reachable from a newly constructed allocator, together with the live
allocations: the non-null results of `Allocate` that have not been passed to
`Free` yet, each as the pair of its block index and of the number of blocks the
call marked.  `allowed` restricts the sizes passed to `Allocate`; `Free` is
only called with the pointer of a live allocation. -/
inductive ReachableBy (allowed : Nat → Prop) : MemoryAllocator → List (Nat × Nat) → Prop where
  | init : ReachableBy allowed new []
  | allocNull {a a1 : MemoryAllocator} {L : List (Nat × Nat)} (size : Nat) :
      ReachableBy allowed a L → allowed size →
      Allocate a size = .ok (a1, Ptr.null) → ReachableBy allowed a1 L
  | alloc {a a1 : MemoryAllocator} {L : List (Nat × Nat)} (size i : Nat) :
      ReachableBy allowed a L → allowed size →
      Allocate a size = .ok (a1, Ptr.block (i : Int)) →
      ReachableBy allowed a1 ((i, (blocksNeeded size).toNat) :: L)
  | free {a a1 : MemoryAllocator} {L : List (Nat × Nat)} (i n : Nat) :
      ReachableBy allowed a L → (i, n) ∈ L →
      Free a (Ptr.block (i : Int)) = .ok a1 → ReachableBy allowed a1 (L.erase (i, n))

/-- Reachability with `Allocate` called for any size. -/
def Reachable (a : MemoryAllocator) (L : List (Nat × Nat)) : Prop :=
  ReachableBy (fun _ => True) a L

/-- Sizes for which `Allocate` computes a block count of at least one. -/
def needsBlock (size : Nat) : Prop := 1 ≤ blocksNeeded size

/-- The number of set bits of the final bitmap. -/
def finalCount (a : MemoryAllocator) : Nat :=
  ((Finset.range BlockCount).filter (fun k => a.isFinal k)).card

/-- Block `k` ends a maximal run of 0 bits of the free bitmap. -/
def MemoryAllocator.endsZeroRun (a : MemoryAllocator) (k : Nat) : Prop :=
  ¬ a.isFree k ∧ (k + 1 = BlockCount ∨ a.isFree (k + 1))

instance (a : MemoryAllocator) (k : Nat) : Decidable (a.endsZeroRun k) := by
  unfold MemoryAllocator.endsZeroRun; infer_instance

/-- The number of maximal runs of 0 bits of the free bitmap. -/
def zeroRunCount (a : MemoryAllocator) : Nat :=
  ((Finset.range BlockCount).filter (fun k => a.endsZeroRun k)).card

/-- Two live allocations of at least one block each occupy disjoint ranges. -/
def Apart (p q : Nat × Nat) : Prop :=
  1 ≤ p.2 ∧ 1 ≤ q.2 ∧ (p.1 + p.2 ≤ q.1 ∨ q.1 + q.2 ≤ p.1)

/-- Invariant of the states reachable with allocations of at least one block:
how the two bitmaps encode the live allocations. -/
structure LiveInv (a : MemoryAllocator) (L : List (Nat × Nat)) : Prop where
  shape : ∀ p ∈ L, 1 ≤ p.2 ∧ p.1 + p.2 ≤ BlockCount
  used : ∀ p ∈ L, ∀ k, p.1 ≤ k → k < p.1 + p.2 → a.freeBlocksMask.bit k = false
  last : ∀ p ∈ L, a.finalBlocksMask.bit (p.1 + p.2 - 1) = true
  inner : ∀ p ∈ L, ∀ k, p.1 ≤ k → k < p.1 + p.2 - 1 → a.finalBlocksMask.bit k = false
  apart : L.Pairwise Apart
  owner : ∀ k, k < BlockCount → a.finalBlocksMask.bit k = true →
    ∃ p ∈ L, k = p.1 + p.2 - 1

/-- The number of bits of a mask word, `8 * sizeof(mask_type)`. -/
def wordBitWidth : Nat := 8 * sizeofMaskType

/-- Bit addressing in the words of the specification: block `i` is bit
`i mod wordBitWidth` of word `i div wordBitWidth`. -/
def specIsSet (i : Nat) (masks : Mask) : Bool :=
  (masks (i / wordBitWidth)).testBit (i % wordBitWidth)

/-! ## The returned pointer, and states reached by `Allocate` alone -/

/-- The pointer `Allocate` returns: null at line 124 for an oversized request,
`&memoryPool[freeIndex]` at line 170, null at line 176.  The source computes it
from `blocksNeeded` and the search loop of lines 129-153 alone; the bitmap
writes of lines 165-169 stand between the test of line 155 and the `return`
but do not enter the returned value, so they are left out here. -/
def allocateResult (a : MemoryAllocator) (size : Nat) : Outcome Ptr :=
  let needed := blocksNeeded size
  if needed > Int.ofNat BlockCount then .ok Ptr.null
  else
    match scanLoop a.freeBlocksMask needed BlockCount 0 0 (-1) with
    | .ok (_, freeIndex) =>
      if freeIndex > -1 then .ok (Ptr.block freeIndex) else .ok Ptr.null
    | .outOfBounds k => .outOfBounds k
    | .outOfFuel => .outOfFuel

/-- States reachable from a newly constructed allocator by calls of `Allocate`
alone, of any size, each of which completes without indexing a mask array out
of bounds (its outcome is `Outcome.ok`), together with the live allocations. -/
inductive AllocReachable : MemoryAllocator → List (Nat × Nat) → Prop where
  | init : AllocReachable new []
  | allocNull {a a1 : MemoryAllocator} {L : List (Nat × Nat)} (size : Nat) :
      AllocReachable a L →
      Allocate a size = .ok (a1, Ptr.null) → AllocReachable a1 L
  | alloc {a a1 : MemoryAllocator} {L : List (Nat × Nat)} (size i : Nat) :
      AllocReachable a L →
      Allocate a size = .ok (a1, Ptr.block (i : Int)) →
      AllocReachable a1 ((i, (blocksNeeded size).toNat) :: L)

/-- Invariant of the states reached by `Allocate` alone: the blocks in use are
the prefix `[0, m)` of the pool, the last of them carries a final bit, and an
allocation is live as soon as a block is in use. -/
def PrefixInv (a : MemoryAllocator) (L : List (Nat × Nat)) (m : Nat) : Prop :=
  m ≤ BlockCount ∧ (∀ k, k < BlockCount → a.freeBlocksMask.bit k = decide (m ≤ k)) ∧
    (0 < m → a.finalBlocksMask.bit (m - 1) = true) ∧ (0 < m → 0 < L.length)

/-! ## Machine arithmetic and the bitmap primitives -/

theorem BlockCount_eq : BlockCount = 32768 := rfl

theorem MaskWords_eq : MaskWords = 4096 := rfl

theorem toSizeT_natCast (i : Nat) (h : i < 18446744073709551616) :
    toSizeT (i : Int) = i := by
  unfold toSizeT
  omega

theorem land_seven (x : Nat) : x &&& 7 = x % 8 :=
  Nat.and_pow_two_sub_one_eq_mod x 3

theorem testBit_eq (x s : Nat) : (((x >>> s) &&& 1) != 0) = x.testBit s := by
  unfold Nat.testBit
  rw [Nat.and_comm]

theorem isBlockSet_of_lt (m : Mask) (i : Nat) (h : i < BlockCount) :
    isBlockSet (i : Int) m = .ok (m.bit i) := by
  have h1 : i < 32768 := h
  unfold isBlockSet
  simp only [toSizeT_natCast i (by omega), sizeofMaskType, MaskWords_eq]
  have h2 : i / 8 < 4096 := by omega
  rw [if_pos h2]
  show Outcome.ok (((m (i / 8) >>> (i &&& 7)) &&& 1) != 0) = _
  rw [land_seven, testBit_eq]
  rfl

theorem setBlock_of_lt (m : Mask) (i : Nat) (h : i < BlockCount) :
    setBlock (i : Int) m = .ok (m.setBit i) := by
  have h1 : i < 32768 := h
  unfold setBlock
  simp only [toSizeT_natCast i (by omega), sizeofMaskType, MaskWords_eq]
  have h2 : i / 8 < 4096 := by omega
  rw [if_pos h2]
  show Outcome.ok (m.store (i / 8) (m (i / 8) ||| 1 <<< (i &&& 7))) = _
  rw [land_seven]
  rfl

theorem clearBlock_of_lt (m : Mask) (i : Nat) (h : i < BlockCount) :
    clearBlock (i : Int) m = .ok (m.clearBit i) := by
  have h1 : i < 32768 := h
  unfold clearBlock
  simp only [toSizeT_natCast i (by omega), sizeofMaskType, MaskWords_eq]
  have h2 : i / 8 < 4096 := by omega
  rw [if_pos h2]
  show Outcome.ok (m.store (i / 8) (m (i / 8) &&& notMask (1 <<< (i &&& 7)))) = _
  rw [land_seven]
  rfl

theorem wordOf_out (index : Int) (h : index < 0 ∨ 32768 ≤ index)
    (hlo : -2147483648 ≤ index) (hhi : index < 2147483648) :
    ¬ toSizeT index / sizeofMaskType < MaskWords := by
  unfold toSizeT
  simp only [sizeofMaskType, MaskWords_eq]
  omega

theorem isBlockSet_out (m : Mask) (index : Int) (h : index < 0 ∨ 32768 ≤ index)
    (hlo : -2147483648 ≤ index) (hhi : index < 2147483648) :
    isBlockSet index m = .outOfBounds index := by
  unfold isBlockSet
  simp only [if_neg (wordOf_out index h hlo hhi)]

theorem setBlock_out (m : Mask) (index : Int) (h : index < 0 ∨ 32768 ≤ index)
    (hlo : -2147483648 ≤ index) (hhi : index < 2147483648) :
    setBlock index m = .outOfBounds index := by
  unfold setBlock
  simp only [if_neg (wordOf_out index h hlo hhi)]

theorem clearBlock_out (m : Mask) (index : Int) (h : index < 0 ∨ 32768 ≤ index)
    (hlo : -2147483648 ≤ index) (hhi : index < 2147483648) :
    clearBlock index m = .outOfBounds index := by
  unfold clearBlock
  simp only [if_neg (wordOf_out index h hlo hhi)]

theorem index_split (i j : Nat) (h : j ≠ i) : j / 8 ≠ i / 8 ∨ j % 8 ≠ i % 8 := by
  omega

theorem bit_setBit (m : Mask) (i j : Nat) :
    (m.setBit i).bit j = (m.bit j || decide (j = i)) := by
  unfold Mask.setBit Mask.bit Mask.store
  by_cases hji : j = i
  · subst hji
    simp [Nat.testBit_or, Nat.one_shiftLeft, Nat.testBit_two_pow_self]
  · rcases index_split i j hji with hw | hb
    · simp [hw, hji]
    · by_cases hw : j / 8 = i / 8
      · simp only [hw, if_true, Nat.testBit_or, Nat.one_shiftLeft]
        rw [Nat.testBit_two_pow_of_ne (Ne.symm hb)]
        simp [hji]
      · simp [hw, hji]

theorem testBit_notMask (s b : Nat) (hs : s < 8) (hb : b < 8) :
    (notMask (1 <<< s)).testBit b = !decide (b = s) := by
  have hlt : (1 <<< s) < 2 ^ 64 := by
    rw [Nat.one_shiftLeft]
    exact Nat.pow_lt_pow_right (by decide) (by omega)
  have hpow : (18446744073709551616 : Nat) = 2 ^ 64 := by norm_num
  unfold notMask
  rw [hpow, Nat.mod_eq_of_lt hlt]
  have e : 18446744073709551615 - 1 <<< s = 2 ^ 64 - (1 <<< s + 1) := by
    omega
  rw [e, Nat.testBit_two_pow_sub_succ hlt, Nat.one_shiftLeft, Nat.testBit_two_pow]
  have : b < 64 := by omega
  simp [this, eq_comm]

theorem bit_clearBit (m : Mask) (i j : Nat) :
    (m.clearBit i).bit j = (m.bit j && !decide (j = i)) := by
  unfold Mask.clearBit Mask.bit Mask.store
  have hi : i % 8 < 8 := Nat.mod_lt _ (by decide)
  have hj : j % 8 < 8 := Nat.mod_lt _ (by decide)
  by_cases hji : j = i
  · subst hji
    simp [Nat.testBit_and, testBit_notMask _ _ hi hi]
  · rcases index_split i j hji with hw | hb
    · simp [hw, hji]
    · by_cases hw : j / 8 = i / 8
      · simp only [hw, if_true, Nat.testBit_and, testBit_notMask _ _ hi hj]
        simp [hji, hb]
      · simp [hw, hji]

theorem land_roundMask (x : Nat) (hx : x < 4294967296) :
    x &&& 4294967288 = 8 * (x / 8) := by
  have h0 : ¬ ((x &&& 4294967288) % 2 = 1) := by
    rw [Nat.and_mod_two_eq_one]; omega
  have d1 : (x &&& 4294967288) / 2 = x / 2 &&& 2147483644 := Nat.and_div_two
  have h1 : ¬ ((x / 2 &&& 2147483644) % 2 = 1) := by
    rw [Nat.and_mod_two_eq_one]; omega
  have d2 : (x / 2 &&& 2147483644) / 2 = x / 2 / 2 &&& 1073741822 := Nat.and_div_two
  have h2 : ¬ ((x / 2 / 2 &&& 1073741822) % 2 = 1) := by
    rw [Nat.and_mod_two_eq_one]; omega
  have d3 : (x / 2 / 2 &&& 1073741822) / 2 = x / 2 / 2 / 2 &&& 536870911 := Nat.and_div_two
  have d4 : x / 2 / 2 / 2 &&& 536870911 = x / 2 / 2 / 2 % 536870912 :=
    Nat.and_pow_two_sub_one_eq_mod _ 29
  omega

theorem blocksNeeded_eq (size : Nat) (h : size ≤ 2147483640) :
    blocksNeeded size = ((size + 7) / 8 : Nat) := by
  unfold blocksNeeded roundUpToPower2 andInt
  simp only [sizeofBlockType, Int.ofNat_eq_coe]
  have e1 : toInt (size : Int) = size := by unfold toInt; omega
  have e2 : toInt ((size : Int) + ((8 : Nat) : Int) - 1) = ((size + 7 : Nat) : Int) := by
    unfold toInt; push_cast; omega
  have e3 : (toInt (-((8 : Nat) : Int)) % 4294967296).toNat = 4294967288 := by
    unfold toInt; norm_num; rfl
  have e4 : (((size + 7 : Nat) : Int) % 4294967296).toNat = size + 7 := by omega
  rw [e1, e2, e3, e4, land_roundMask _ (by omega)]
  have e5 : toInt ((8 * ((size + 7) / 8) : Nat) : Int) = ((8 * ((size + 7) / 8) : Nat) : Int) := by
    unfold toInt; omega
  rw [e5, toSizeT_natCast _ (by omega)]
  have e6 : 8 * ((size + 7) / 8) / 8 = (size + 7) / 8 := by omega
  rw [e6]
  unfold toInt; omega

/-! ## The search loop -/

theorem scanLoop_spec (m : Mask) (n : Nat) :
    ∀ (left index bf : Nat) (fi : Int), index + left = BlockCount →
      ScanInv m n index bf fi →
      ∃ res, scanLoop m (n : Int) left (index : Int) (bf : Int) fi = .ok res ∧
        ScanPost m n res := by
  intro left
  induction left with
  | zero =>
    intro index bf fi hidx inv
    refine ⟨((bf : Int), fi), rfl, Or.inr ⟨bf, rfl, inv.lt, ?_, ?_, inv.zero, ?_, ?_, ?_⟩⟩
    · have := inv.le; omega
    · intro j hj
      apply inv.least
      have := inv.lt
      omega
    · intro h
      have e : BlockCount = index := by omega
      rw [e]
      exact inv.pos h
    · have e : BlockCount = index := by omega
      rw [e]
      exact inv.run
    · intro h
      have e : BlockCount = index := by omega
      rw [e]
      exact inv.stop (by omega)
  | succ left ih =>
    intro index bf fi hidx inv
    have hlt : index < BlockCount := by omega
    have hle := inv.le
    have hbn := inv.lt
    rw [scanLoop, isBlockSet_of_lt m index hlt]
    cases hb : m.bit index with
    | true =>
      simp only
      have hrun : runFree m (index - bf) (bf + 1) := by
        intro k hk1 hk2
        by_cases hki : k = index
        · rw [hki]; exact hb
        · exact inv.run k hk1 (by omega)
      have hfi : (if (bf : Int) = 0 then (index : Int) else fi) = ((index - bf : Nat) : Int) := by
        by_cases h0 : bf = 0
        · subst h0; simp
        · have : ¬ ((bf : Int) = 0) := by omega
          rw [if_neg this]
          exact inv.pos (by omega)
      rw [hfi]
      by_cases hfound : bf + 1 = n
      · have : (bf : Int) + 1 = (n : Int) := by omega
        rw [if_pos this]
        refine ⟨_, rfl, Or.inl ⟨this, index - bf, rfl, by omega, ?_, inv.least⟩⟩
        rw [← hfound]
        exact hrun
      · have : ¬ ((bf : Int) + 1 = (n : Int)) := by omega
        rw [if_neg this]
        have key := ih (index + 1) (bf + 1) ((index - bf : Nat) : Int) (by omega)
          { lt := by omega
            le := by omega
            zero := by intro h; omega
            pos := by
              intro _
              have : index + 1 - (bf + 1) = index - bf := by omega
              rw [this]
            run := by
              have : index + 1 - (bf + 1) = index - bf := by omega
              rw [this]; exact hrun
            stop := by
              intro h
              have : index + 1 - (bf + 1) - 1 = index - bf - 1 := by omega
              rw [this]; exact inv.stop (by omega)
            least := by
              intro j hj
              exact inv.least j (by omega) }
        push_cast at key
        exact key
    | false =>
      simp only
      have key := ih (index + 1) 0 (-1) (by omega)
        { lt := by omega
          le := by omega
          zero := fun _ => rfl
          pos := by intro h; omega
          run := by intro k hk1 hk2; omega
          stop := by
            intro _
            have : index + 1 - 0 - 1 = index := by omega
            rw [this]; exact hb
          least := by
            intro j hj hr
            by_cases hj2 : j < index - bf
            · exact inv.least j hj2 hr
            · have := hr index (by omega) (by omega)
              rw [hb] at this
              exact Bool.noConfusion this }
      push_cast at key
      exact key

theorem new_free_bit (k : Nat) : new.freeBlocksMask.bit k = true := by
  show (18446744073709551615 : Nat).testBit (k % 8) = true
  have e : (18446744073709551615 : Nat) = 2 ^ 64 - 1 := by norm_num
  rw [e, Nat.testBit_two_pow_sub_one]
  have : k % 8 < 64 := by omega
  simp [this]

theorem new_final_bit (k : Nat) : new.finalBlocksMask.bit k = false := by
  show (0 : Nat).testBit (k % 8) = false
  exact Nat.zero_testBit _

theorem clearLoop_spec :
    ∀ (n i : Nat) (m : Mask), i + n ≤ BlockCount →
      ∃ m1, clearLoop n (i : Int) m = .ok m1 ∧
        ∀ j, m1.bit j = (m.bit j && !decide (i ≤ j ∧ j < i + n)) := by
  intro n
  induction n with
  | zero =>
    intro i m _
    refine ⟨m, rfl, ?_⟩
    intro j
    have : ¬ (i ≤ j ∧ j < i + 0) := by omega
    rw [decide_eq_false this]
    simp
  | succ n ih =>
    intro i m h
    rw [clearLoop, clearBlock_of_lt m i (by omega)]
    obtain ⟨m1, h1, h2⟩ := ih (i + 1) (m.clearBit i) (by omega)
    push_cast at h1
    refine ⟨m1, h1, ?_⟩
    intro j
    rw [h2, bit_clearBit]
    by_cases hj : j = i
    · subst hj
      have : j ≤ j ∧ j < j + (n + 1) := by omega
      rw [decide_eq_true this]
      simp
    · by_cases hr : i ≤ j ∧ j < i + (n + 1)
      · have : i + 1 ≤ j ∧ j < i + 1 + n := by omega
        rw [decide_eq_true hr, decide_eq_true this]
        simp
      · have : ¬ (i + 1 ≤ j ∧ j < i + 1 + n) := by omega
        rw [decide_eq_false hr, decide_eq_false this, decide_eq_false hj]
        simp

theorem clearLoop_out :
    ∀ (n i : Nat) (m : Mask), i ≤ BlockCount → BlockCount < i + n →
      clearLoop n (i : Int) m = .outOfBounds 32768 := by
  intro n
  induction n with
  | zero => intro i m h1 h2; omega
  | succ n ih =>
    intro i m h1 h2
    rw [clearLoop]
    by_cases hi : i = BlockCount
    · have hi2 : i = 32768 := hi
      rw [clearBlock_out m (i : Int) (by omega) (by omega) (by omega)]
      simp only
      rw [hi2]
      rfl
    · have hlt : i < BlockCount := by omega
      rw [clearBlock_of_lt m i hlt]
      have := ih (i + 1) (m.clearBit i) (by omega) (by omega)
      push_cast at this
      exact this

theorem scan_result (m : Mask) (n : Nat) (hn : 1 ≤ n) :
    ∃ res, scanLoop m (n : Int) BlockCount 0 0 (-1) = .ok res ∧ ScanPost m n res := by
  have key := scanLoop_spec m n BlockCount 0 0 (-1) (by omega)
    { lt := by omega
      le := by omega
      zero := fun _ => rfl
      pos := by intro h; omega
      run := by intro k hk1 hk2; omega
      stop := by intro h; omega
      least := by intro j hj; omega }
  simpa using key

theorem scan_found (m : Mask) (n : Nat) (hn : 1 ≤ n)
    (hex : ∃ j, j + n ≤ BlockCount ∧ runFree m j n) :
    ∃ i : Nat, scanLoop m (n : Int) BlockCount 0 0 (-1) = .ok ((n : Int), (i : Int)) ∧
      i + n ≤ BlockCount ∧ runFree m i n ∧ ∀ j, j < i → ¬ runFree m j n := by
  obtain ⟨res, hres, hpost⟩ := scan_result m n hn
  rcases hpost with ⟨h1, i, h2, h3, h4, h5⟩ | ⟨bf, _, _, _, hno, _⟩
  · refine ⟨i, ?_, h3, h4, h5⟩
    rw [hres, ← h1, ← h2]
  · obtain ⟨j, hj1, hj2⟩ := hex
    exact absurd hj2 (hno j hj1)

theorem scan_not_found (m : Mask) (n : Nat) (hn : 1 ≤ n)
    (hno : ∀ j, j + n ≤ BlockCount → ¬ runFree m j n) :
    ∃ bf : Nat, bf < n ∧ bf ≤ BlockCount ∧
      scanLoop m (n : Int) BlockCount 0 0 (-1)
        = .ok ((bf : Int), if bf = 0 then -1 else ((BlockCount - bf : Nat) : Int)) ∧
      runFree m (BlockCount - bf) bf ∧
      (bf < BlockCount → m.bit (BlockCount - bf - 1) = false) := by
  obtain ⟨res, hres, hpost⟩ := scan_result m n hn
  rcases hpost with ⟨_, i, _, h3, h4, _⟩ | ⟨bf, h1, h2, h3, _, h5, h6, h7, h8⟩
  · exact absurd h4 (hno i h3)
  · refine ⟨bf, h2, h3, ?_, h7, h8⟩
    rw [hres]
    by_cases hb : bf = 0
    · rw [if_pos hb, ← h1, ← h5 hb]
    · rw [if_neg hb, ← h1, ← h6 (by omega)]

/-! ## `Allocate` -/

theorem Allocate_found (a : MemoryAllocator) (size n : Nat)
    (hn : blocksNeeded size = (n : Int)) (h1 : 1 ≤ n)
    (hex : ∃ j, j + n ≤ BlockCount ∧ runFree a.freeBlocksMask j n) :
    ∃ (i : Nat) (a1 : MemoryAllocator),
      Allocate a size = .ok (a1, Ptr.block (i : Int)) ∧
      i + n ≤ BlockCount ∧ runFree a.freeBlocksMask i n ∧
      (∀ j, j < i → ¬ runFree a.freeBlocksMask j n) ∧
      (∀ k, a1.freeBlocksMask.bit k
          = (a.freeBlocksMask.bit k && !decide (i ≤ k ∧ k < i + n))) ∧
      (∀ k, a1.finalBlocksMask.bit k
          = (a.finalBlocksMask.bit k || decide (k = i + n - 1))) := by
  obtain ⟨i, hscan, hin, hrun, hleast⟩ := scan_found a.freeBlocksMask n h1 hex
  obtain ⟨m1, hclear, hbits⟩ := clearLoop_spec n i a.freeBlocksMask hin
  have hle : ¬ ((n : Int) > Int.ofNat BlockCount) := by
    have : n ≤ BlockCount := by omega
    simp only [Int.ofNat_eq_coe]
    omega
  have hpos : (i : Int) > -1 := by omega
  have hcount : ((i : Int) + (n : Int) - (i : Int)).toNat = n := by omega
  have hend : (i : Int) + (n : Int) - 1 = ((i + n - 1 : Nat) : Int) := by omega
  refine ⟨i, ⟨m1, a.finalBlocksMask.setBit (i + n - 1)⟩, ?_, hin, hrun, hleast, hbits, ?_⟩
  · unfold Allocate
    dsimp only
    rw [hn, if_neg hle, hscan]
    dsimp only
    rw [if_pos hpos, hcount, hclear]
    dsimp only
    rw [hend, setBlock_of_lt _ _ (by omega)]
  · intro k
    exact bit_setBit _ _ _

theorem Allocate_not_found (a : MemoryAllocator) (size n : Nat)
    (hn : blocksNeeded size = (n : Int)) (h1 : 1 ≤ n) (h2 : n ≤ BlockCount)
    (hno : ∀ j, j + n ≤ BlockCount → ¬ runFree a.freeBlocksMask j n) :
    (a.freeBlocksMask.bit (BlockCount - 1) = false → Allocate a size = .ok (a, Ptr.null)) ∧
    (a.freeBlocksMask.bit (BlockCount - 1) = true →
      ∃ bf : Nat, 0 < bf ∧ bf < n ∧
        scanLoop a.freeBlocksMask (n : Int) BlockCount 0 0 (-1)
          = .ok ((bf : Int), ((BlockCount - bf : Nat) : Int)) ∧
        Allocate a size = .outOfBounds 32768) := by
  obtain ⟨bf, hlt, hle2, hscan, hrun, hstop⟩ := scan_not_found a.freeBlocksMask n h1 hno
  have hle : ¬ ((n : Int) > Int.ofNat BlockCount) := by
    simp only [Int.ofNat_eq_coe]
    omega
  have hB : BlockCount = 32768 := rfl
  constructor
  · intro hlast
    have hbf : bf = 0 := by
      by_contra hne
      have := hrun (BlockCount - 1) (by omega) (by omega)
      rw [hlast] at this
      exact Bool.noConfusion this
    rw [if_pos hbf] at hscan
    unfold Allocate
    dsimp only
    rw [hn, if_neg hle, hscan]
    dsimp only
    rw [if_neg (by omega)]
  · intro hlast
    have hbf : 0 < bf := by
      by_contra hne
      have hz : bf = 0 := by omega
      have := hstop (by omega)
      rw [hz, Nat.sub_zero, hlast] at this
      exact Bool.noConfusion this
    rw [if_neg (by omega)] at hscan
    refine ⟨bf, hbf, hlt, hscan, ?_⟩
    have hpos : ((BlockCount - bf : Nat) : Int) > -1 := by omega
    have hcount : (((BlockCount - bf : Nat) : Int) + (n : Int)
        - ((BlockCount - bf : Nat) : Int)).toNat = n := by omega
    unfold Allocate
    dsimp only
    rw [hn, if_neg hle, hscan]
    dsimp only
    rw [if_pos hpos, hcount, clearLoop_out n (BlockCount - bf) _ (by omega) (by omega)]

/-! ## `Free` -/

theorem freeLoop_spec (final : Mask) :
    ∀ (fuel i e : Nat) (free : Mask), i ≤ e → e < BlockCount → e - i < fuel →
      (∀ k, i ≤ k → k < e → final.bit k = false) → final.bit e = true →
      ∃ free1, freeLoop final fuel (i : Int) free = .ok (free1, (e : Int)) ∧
        ∀ k, free1.bit k = (free.bit k || decide (i ≤ k ∧ k < e)) := by
  intro fuel
  induction fuel with
  | zero => intro i e free _ _ h; omega
  | succ fuel ih =>
    intro i e free hie he hfuel hzero hfin
    rw [freeLoop, isBlockSet_of_lt final i (by omega)]
    by_cases hi : i = e
    · subst hi
      rw [hfin]
      refine ⟨free, rfl, ?_⟩
      intro k
      have : ¬ (i ≤ k ∧ k < i) := by omega
      rw [decide_eq_false this]
      simp
    · rw [hzero i (by omega) (by omega)]
      dsimp only
      rw [setBlock_of_lt free i (by omega)]
      dsimp only
      obtain ⟨free1, h1, h2⟩ := ih (i + 1) e (free.setBit i) (by omega) he (by omega)
        (fun k hk1 hk2 => hzero k (by omega) hk2) hfin
      push_cast at h1
      refine ⟨free1, h1, ?_⟩
      intro k
      rw [h2, bit_setBit]
      by_cases hk : k = i
      · have c1 : i ≤ k ∧ k < e := by omega
        rw [decide_eq_true hk, decide_eq_true c1]
        simp
      · by_cases c1 : i ≤ k ∧ k < e
        · have c2 : i + 1 ≤ k ∧ k < e := by omega
          rw [decide_eq_true c1, decide_eq_true c2]
          simp
        · have c2 : ¬ (i + 1 ≤ k ∧ k < e) := by omega
          rw [decide_eq_false c1, decide_eq_false c2, decide_eq_false hk]
          simp

theorem freeLoop_overrun (final : Mask) :
    ∀ (fuel i : Nat) (free : Mask), i ≤ BlockCount → BlockCount < fuel + i →
      (∀ k, i ≤ k → k < BlockCount → final.bit k = false) →
      freeLoop final fuel (i : Int) free = .outOfBounds 32768 := by
  intro fuel
  induction fuel with
  | zero => intro i free h1 h2; omega
  | succ fuel ih =>
    intro i free h1 h2 hzero
    rw [freeLoop]
    by_cases hi : i = BlockCount
    · have hi2 : i = 32768 := hi
      rw [isBlockSet_out final (i : Int) (by omega) (by omega) (by omega), hi2]
      rfl
    · rw [isBlockSet_of_lt final i (by omega), hzero i (by omega) (by omega)]
      dsimp only
      rw [setBlock_of_lt free i (by omega)]
      dsimp only
      have := ih (i + 1) (free.setBit i) (by omega) (by omega)
        (fun k hk1 hk2 => hzero k (by omega) hk2)
      push_cast at this
      exact this

theorem freeLoop_fuel (final : Mask) :
    ∀ (fuel : Nat) (index : Int) (free : Mask), 0 ≤ index → index < 2147483648 →
      1 ≤ fuel → (BlockCount : Int) < fuel + index →
      freeLoop final fuel index free ≠ .outOfFuel := by
  intro fuel
  induction fuel with
  | zero => intro index free _ _ h; omega
  | succ fuel ih =>
    intro index free h0 hhi _ h2
    rw [freeLoop]
    have hB : BlockCount = 32768 := rfl
    by_cases hi : 32768 ≤ index
    · rw [isBlockSet_out final index (Or.inr hi) (by omega) hhi]
      intro h; exact Outcome.noConfusion h
    · obtain ⟨i, rfl⟩ : ∃ i : Nat, index = (i : Int) := ⟨index.toNat, by omega⟩
      rw [isBlockSet_of_lt final i (by omega)]
      cases final.bit i with
      | true => intro h; exact Outcome.noConfusion h
      | false =>
        dsimp only
        rw [setBlock_of_lt free i (by omega)]
        dsimp only
        exact ih ((i : Int) + 1) (free.setBit i) (by omega) (by omega) (by omega)
          (by push_cast at h2 ⊢; omega)

theorem toInt_of_small (x : Int) (h0 : -2147483648 ≤ x) (h1 : x < 2147483648) : toInt x = x := by
  unfold toInt; omega

theorem Free_live (a : MemoryAllocator) (i e : Nat) (hie : i ≤ e) (he : e < BlockCount)
    (hzero : ∀ k, i ≤ k → k < e → a.finalBlocksMask.bit k = false)
    (hfin : a.finalBlocksMask.bit e = true) :
    ∃ a1, Free a (Ptr.block (i : Int)) = .ok a1 ∧
      (∀ k, a1.freeBlocksMask.bit k = (a.freeBlocksMask.bit k || decide (i ≤ k ∧ k < e))) ∧
      (∀ k, a1.finalBlocksMask.bit k = (a.finalBlocksMask.bit k && !decide (k = e))) := by
  have hB : BlockCount = 32768 := rfl
  obtain ⟨free1, h1, h2⟩ := freeLoop_spec a.finalBlocksMask (BlockCount + 1) i e
    a.freeBlocksMask hie he (by omega) hzero hfin
  have hrange : 0 ≤ (i : Int) ∧ (i : Int) < Int.ofNat MemoryPoolSize := by
    have : MemoryPoolSize = 262144 := rfl
    simp only [Int.ofNat_eq_coe]
    omega
  refine ⟨⟨free1, a.finalBlocksMask.clearBit e⟩, ?_, h2, fun k => bit_clearBit _ _ _⟩
  unfold Free
  dsimp only
  rw [if_pos hrange, toInt_of_small _ (by omega) (by omega), h1]
  dsimp only
  rw [clearBlock_of_lt _ _ he]

theorem Free_overrun (a : MemoryAllocator) (i : Nat) (hi : i ≤ BlockCount)
    (hzero : ∀ k, i ≤ k → k < BlockCount → a.finalBlocksMask.bit k = false) :
    Free a (Ptr.block (i : Int)) = .outOfBounds 32768 := by
  have hB : BlockCount = 32768 := rfl
  have hrange : 0 ≤ (i : Int) ∧ (i : Int) < Int.ofNat MemoryPoolSize := by
    have : MemoryPoolSize = 262144 := rfl
    simp only [Int.ofNat_eq_coe]
    omega
  unfold Free
  dsimp only
  rw [if_pos hrange, toInt_of_small _ (by omega) (by omega),
    freeLoop_overrun a.finalBlocksMask (BlockCount + 1) i a.freeBlocksMask hi (by omega) hzero]

theorem Free_never_outOfFuel (a : MemoryAllocator) (p : Ptr) : Free a p ≠ .outOfFuel := by
  have hB : BlockCount = 32768 := rfl
  have hM : MemoryPoolSize = 262144 := rfl
  cases p with
  | null => intro h; exact Outcome.noConfusion h
  | block offset =>
    unfold Free
    dsimp only
    by_cases hr : 0 ≤ offset ∧ offset < Int.ofNat MemoryPoolSize
    · rw [if_pos hr]
      simp only [Int.ofNat_eq_coe] at hr
      rw [toInt_of_small _ (by omega) (by omega)]
      have hf := freeLoop_fuel a.finalBlocksMask (BlockCount + 1) offset a.freeBlocksMask
        hr.1 (by omega) (by omega) (by push_cast; omega)
      cases hl : freeLoop a.finalBlocksMask (BlockCount + 1) offset a.freeBlocksMask with
      | ok val =>
        obtain ⟨free1, idx⟩ := val
        dsimp only
        cases hc : clearBlock idx a.finalBlocksMask with
        | ok v => intro h; exact Outcome.noConfusion h
        | outOfBounds k => intro h; exact Outcome.noConfusion h
        | outOfFuel =>
          unfold clearBlock at hc
          dsimp only at hc
          split at hc <;> exact Outcome.noConfusion hc
      | outOfBounds k => intro h; exact Outcome.noConfusion h
      | outOfFuel => exact absurd hl hf
    · rw [if_neg hr]
      intro h; exact Outcome.noConfusion h

theorem Allocate_at (a : MemoryAllocator) (size n i : Nat)
    (hn : blocksNeeded size = (n : Int)) (h1 : 1 ≤ n) (hin : i + n ≤ BlockCount)
    (hrun : runFree a.freeBlocksMask i n)
    (hleast : ∀ j, j < i → ¬ runFree a.freeBlocksMask j n) :
    ∃ a1 : MemoryAllocator,
      Allocate a size = .ok (a1, Ptr.block (i : Int)) ∧
      (∀ k, a1.freeBlocksMask.bit k
          = (a.freeBlocksMask.bit k && !decide (i ≤ k ∧ k < i + n))) ∧
      (∀ k, a1.finalBlocksMask.bit k
          = (a.finalBlocksMask.bit k || decide (k = i + n - 1))) := by
  obtain ⟨i1, a1, hA, _, hrun1, hleast1, hf, hl⟩ := Allocate_found a size n hn h1 ⟨i, hin, hrun⟩
  have hi : i1 = i := by
    rcases Nat.lt_trichotomy i1 i with h | h | h
    · exact absurd hrun1 (hleast i1 h)
    · exact h
    · exact absurd hrun (hleast1 i h)
  subst hi
  exact ⟨a1, hA, hf, hl⟩

theorem scanLoop_all_free (m : Mask) (needed : Int) (hneed : needed ≤ 0)
    (hfree : ∀ k, m.bit k = true) :
    ∀ (left index : Nat) (fi : Int), index + left = BlockCount →
      (0 < index → fi = 0) → (index = 0 → 0 < left) →
      scanLoop m needed left (index : Int) (index : Int) fi = .ok (32768, 0) := by
  intro left
  induction left with
  | zero =>
    intro index fi h1 h2 h3
    have hB : BlockCount = 32768 := rfl
    have hi : index = 32768 := by omega
    rw [scanLoop, h2 (by omega), hi]
    rfl
  | succ left ih =>
    intro index fi h1 h2 h3
    have hB : BlockCount = 32768 := rfl
    rw [scanLoop, isBlockSet_of_lt m index (by omega), hfree index]
    dsimp only
    have hne : ¬ ((index : Int) + 1 = needed) := by omega
    rw [if_neg hne]
    have hfi : (if (index : Int) = 0 then (index : Int) else fi) = 0 := by
      by_cases h0 : index = 0
      · subst h0; simp
      · have : ¬ ((index : Int) = 0) := by omega
        rw [if_neg this]
        exact h2 (by omega)
    rw [hfi]
    have := ih (index + 1) 0 (by omega) (fun _ => rfl) (by omega)
    push_cast at this
    exact this

theorem Allocate_zero_blocks (a : MemoryAllocator) (size : Nat)
    (hn : blocksNeeded size = 0) (hfree : ∀ k, a.freeBlocksMask.bit k = true) :
    Allocate a size = .outOfBounds (-1) := by
  have hscan := scanLoop_all_free a.freeBlocksMask 0 (le_refl 0) hfree
    BlockCount 0 (-1) (by omega) (by intro h; omega) (by intro _; decide)
  rw [Nat.cast_zero] at hscan
  have hle : ¬ ((0 : Int) > Int.ofNat BlockCount) := by
    simp only [Int.ofNat_eq_coe]
    omega
  unfold Allocate
  dsimp only
  rw [hn, if_neg hle, hscan]
  dsimp only
  rw [if_pos (by omega)]
  rfl

/-! ## Further facts about the two operations -/

theorem Allocate_too_large (a : MemoryAllocator) (size : Nat)
    (h1 : MemoryPoolSize < size) (h2 : size ≤ 2147483640) :
    Allocate a size = .ok (a, Ptr.null) := by
  have hM : MemoryPoolSize = 262144 := rfl
  have hB : BlockCount = 32768 := rfl
  have hgt : blocksNeeded size > Int.ofNat BlockCount := by
    rw [blocksNeeded_eq size h2]
    simp only [Int.ofNat_eq_coe]
    omega
  unfold Allocate
  dsimp only
  rw [if_pos hgt]

theorem Allocate_new_in_pool (size : Nat) (h1 : 1 ≤ size) (h2 : size ≤ MemoryPoolSize) :
    ∃ a1 : MemoryAllocator, Allocate new size = .ok (a1, Ptr.block 0) ∧
      0 + ceilBlocks size ≤ BlockCount := by
  have hM : MemoryPoolSize = 262144 := rfl
  have hB : BlockCount = 32768 := rfl
  have hc : ceilBlocks size = (size + 7) / 8 := rfl
  obtain ⟨a1, hA, _, _⟩ := Allocate_at new size ((size + 7) / 8) 0
    (blocksNeeded_eq size (by omega)) (by omega) (by omega)
    (fun k _ _ => new_free_bit k) (fun j hj => by omega)
  rw [Nat.cast_zero] at hA
  exact ⟨a1, hA, by omega⟩

/-! ## Reading the bitmaps through `isBlockSet` -/

theorem isFree_iff (a : MemoryAllocator) (k : Nat) (h : k < BlockCount) :
    a.isFree k ↔ a.freeBlocksMask.bit k = true := by
  unfold MemoryAllocator.isFree
  rw [isBlockSet_of_lt _ _ h]
  constructor
  · intro h1; injection h1
  · intro h1; rw [h1]

theorem isFinal_iff (a : MemoryAllocator) (k : Nat) (h : k < BlockCount) :
    a.isFinal k ↔ a.finalBlocksMask.bit k = true := by
  unfold MemoryAllocator.isFinal
  rw [isBlockSet_of_lt _ _ h]
  constructor
  · intro h1; injection h1
  · intro h1; rw [h1]

theorem ceilBlocks_eq (size : Nat) : ceilBlocks size = (size + 7) / 8 := rfl

theorem Free_outside (a : MemoryAllocator) (offset : Int)
    (h : offset < 0 ∨ (MemoryPoolSize : Int) ≤ offset) :
    Free a (Ptr.block offset) = .ok a := by
  have hr : ¬ (0 ≤ offset ∧ offset < Int.ofNat MemoryPoolSize) := by
    simp only [Int.ofNat_eq_coe]
    omega
  unfold Free
  dsimp only
  rw [if_neg hr]

theorem Free_null (a : MemoryAllocator) : Free a Ptr.null = .ok a := rfl

/-! ## Requests of no block -/

theorem scanLoop_nonpos (m : Mask) (needed : Int) (hneed : needed ≤ 0) :
    ∀ (left index bf : Nat) (fi : Int), index + left = BlockCount → bf ≤ index →
      (bf = 0 → fi = -1) → (0 < bf → fi = ((index - bf : Nat) : Int)) →
      runFree m (index - bf) bf → (bf < index → m.bit (index - bf - 1) = false) →
      ∃ bf1 : Nat, bf1 ≤ BlockCount ∧
        scanLoop m needed left (index : Int) (bf : Int) fi
          = .ok ((bf1 : Int), if bf1 = 0 then -1 else ((BlockCount - bf1 : Nat) : Int)) ∧
        runFree m (BlockCount - bf1) bf1 ∧
        (bf1 < BlockCount → m.bit (BlockCount - bf1 - 1) = false) := by
  intro left
  induction left with
  | zero =>
    intro index bf fi hidx hle hzero hpos hrun hstop
    have e : BlockCount = index := by omega
    refine ⟨bf, by omega, ?_, by rw [e]; exact hrun, by rw [e]; exact hstop⟩
    rw [scanLoop]
    by_cases hb : bf = 0
    · rw [if_pos hb, hzero hb]
    · rw [if_neg hb, hpos (by omega), e]
  | succ left ih =>
    intro index bf fi hidx hle hzero hpos hrun hstop
    have hlt : index < BlockCount := by omega
    rw [scanLoop, isBlockSet_of_lt m index hlt]
    cases hb : m.bit index with
    | true =>
      dsimp only
      have hne : ¬ ((bf : Int) + 1 = needed) := by omega
      rw [if_neg hne]
      have hfi : (if (bf : Int) = 0 then (index : Int) else fi) = ((index - bf : Nat) : Int) := by
        by_cases h0 : bf = 0
        · subst h0; simp
        · have : ¬ ((bf : Int) = 0) := by omega
          rw [if_neg this]
          exact hpos (by omega)
      rw [hfi]
      have e1 : index + 1 - (bf + 1) = index - bf := by omega
      have key := ih (index + 1) (bf + 1) ((index - bf : Nat) : Int) (by omega) (by omega)
        (by intro h; omega) (by intro _; rw [e1])
        (by
          rw [e1]
          intro k hk1 hk2
          by_cases hki : k = index
          · rw [hki]; exact hb
          · exact hrun k hk1 (by omega))
        (by
          intro h
          have : index + 1 - (bf + 1) - 1 = index - bf - 1 := by omega
          rw [this]; exact hstop (by omega))
      push_cast at key
      exact key
    | false =>
      dsimp only
      have key := ih (index + 1) 0 (-1) (by omega) (by omega) (fun _ => rfl)
        (by intro h; omega) (by intro k hk1 hk2; omega)
        (by
          intro _
          have : index + 1 - 0 - 1 = index := by omega
          rw [this]; exact hb)
      push_cast at key
      exact key

theorem Allocate_zero_tail (a : MemoryAllocator) (size f : Nat)
    (hn : blocksNeeded size = 0) (hf1 : 1 ≤ f) (hf2 : f < BlockCount)
    (hused : a.freeBlocksMask.bit (f - 1) = false)
    (hrun : runFree a.freeBlocksMask f (BlockCount - f)) :
    Allocate a size
      = .ok (⟨a.freeBlocksMask, a.finalBlocksMask.setBit (f - 1)⟩, Ptr.block (f : Int)) := by
  obtain ⟨bf, hbf, hscan, hrun1, hstop1⟩ := scanLoop_nonpos a.freeBlocksMask 0 (le_refl 0)
    BlockCount 0 0 (-1) (by omega) (by omega) (fun _ => rfl) (by intro h; omega)
    (by intro k hk1 hk2; omega) (by intro h; omega)
  rw [Nat.cast_zero] at hscan
  have hbfeq : BlockCount - bf = f := by
    rcases Nat.lt_trichotomy (BlockCount - bf) f with h | h | h
    · have := hrun1 (f - 1) (by omega) (by omega)
      rw [hused] at this
      exact Bool.noConfusion this
    · exact h
    · have h1 := hstop1 (by omega)
      have h2 := hrun (BlockCount - bf - 1) (by omega) (by omega)
      rw [h1] at h2
      exact Bool.noConfusion h2
  have hne : ¬ bf = 0 := by omega
  rw [if_neg hne, hbfeq] at hscan
  have hle : ¬ ((0 : Int) > Int.ofNat BlockCount) := by
    simp only [Int.ofNat_eq_coe]
    omega
  have hcount : ((f : Int) + 0 - (f : Int)).toNat = 0 := by omega
  have hend : (f : Int) + 0 - 1 = ((f - 1 : Nat) : Int) := by omega
  unfold Allocate
  dsimp only
  rw [hn, if_neg hle, hscan]
  dsimp only
  rw [if_pos (by omega), hcount, clearLoop]
  dsimp only
  rw [hend, setBlock_of_lt _ _ (by omega)]

theorem Allocate_null_of_gt (a : MemoryAllocator) (size : Nat)
    (h : blocksNeeded size > Int.ofNat BlockCount) : Allocate a size = .ok (a, Ptr.null) := by
  unfold Allocate
  dsimp only
  rw [if_pos h]

/-! ## Requests of at least one block -/

theorem Allocate_block_inv (a a1 : MemoryAllocator) (size n i : Nat)
    (hn : blocksNeeded size = (n : Int)) (h1 : 1 ≤ n)
    (h : Allocate a size = .ok (a1, Ptr.block (i : Int))) :
    i + n ≤ BlockCount ∧ runFree a.freeBlocksMask i n ∧
      (∀ j, j < i → ¬ runFree a.freeBlocksMask j n) ∧
      (∀ k, a1.freeBlocksMask.bit k
          = (a.freeBlocksMask.bit k && !decide (i ≤ k ∧ k < i + n))) ∧
      (∀ k, a1.finalBlocksMask.bit k
          = (a.finalBlocksMask.bit k || decide (k = i + n - 1))) := by
  by_cases hgt : BlockCount < n
  · have hg : blocksNeeded size > Int.ofNat BlockCount := by
      rw [hn]
      simp only [Int.ofNat_eq_coe]
      omega
    rw [Allocate_null_of_gt a size hg] at h
    simp only [Outcome.ok.injEq, Prod.mk.injEq] at h
    exact absurd h.2 (by intro h2; exact Ptr.noConfusion h2)
  · by_cases hex : ∃ j, j + n ≤ BlockCount ∧ runFree a.freeBlocksMask j n
    · obtain ⟨i1, a2, hA, hin, hrun, hleast, hf, hl⟩ := Allocate_found a size n hn h1 hex
      rw [hA] at h
      simp only [Outcome.ok.injEq, Prod.mk.injEq, Ptr.block.injEq, Nat.cast_inj] at h
      obtain ⟨ha, hi⟩ := h
      subst ha
      subst hi
      exact ⟨hin, hrun, hleast, hf, hl⟩
    · have hno : ∀ j, j + n ≤ BlockCount → ¬ runFree a.freeBlocksMask j n :=
        fun j hj hr => hex ⟨j, hj, hr⟩
      have hnf := Allocate_not_found a size n hn h1 (by omega) hno
      cases hlast : a.freeBlocksMask.bit (BlockCount - 1) with
      | false =>
        rw [hnf.1 hlast] at h
        simp only [Outcome.ok.injEq, Prod.mk.injEq] at h
        exact absurd h.2 (by intro h2; exact Ptr.noConfusion h2)
      | true =>
        obtain ⟨_, _, _, _, hover⟩ := hnf.2 hlast
        rw [hover] at h
        exact Outcome.noConfusion h

theorem Allocate_null_inv (a a1 : MemoryAllocator) (size n : Nat)
    (hn : blocksNeeded size = (n : Int)) (h1 : 1 ≤ n)
    (h : Allocate a size = .ok (a1, Ptr.null)) : a1 = a := by
  by_cases hgt : BlockCount < n
  · have hg : blocksNeeded size > Int.ofNat BlockCount := by
      rw [hn]
      simp only [Int.ofNat_eq_coe]
      omega
    rw [Allocate_null_of_gt a size hg] at h
    simp only [Outcome.ok.injEq, Prod.mk.injEq] at h
    exact h.1.symm
  · by_cases hex : ∃ j, j + n ≤ BlockCount ∧ runFree a.freeBlocksMask j n
    · obtain ⟨i1, a2, hA, _⟩ := Allocate_found a size n hn h1 hex
      rw [hA] at h
      simp only [Outcome.ok.injEq, Prod.mk.injEq] at h
      exact absurd h.2 (by intro h2; exact Ptr.noConfusion h2)
    · have hno : ∀ j, j + n ≤ BlockCount → ¬ runFree a.freeBlocksMask j n :=
        fun j hj hr => hex ⟨j, hj, hr⟩
      have hnf := Allocate_not_found a size n hn h1 (by omega) hno
      cases hlast : a.freeBlocksMask.bit (BlockCount - 1) with
      | false =>
        rw [hnf.1 hlast] at h
        simp only [Outcome.ok.injEq, Prod.mk.injEq] at h
        exact h.1.symm
      | true =>
        obtain ⟨_, _, _, _, hover⟩ := hnf.2 hlast
        rw [hover] at h
        exact Outcome.noConfusion h

theorem Apart_symm : Symmetric Apart := by
  intro p q h
  exact ⟨h.2.1, h.1, h.2.2.symm⟩

theorem Apart_ne (p q : Nat × Nat) (h : Apart p q) : p ≠ q := by
  intro e
  subst e
  obtain ⟨h1, _, h3⟩ := h
  omega

theorem LiveInv_init : LiveInv new [] where
  shape := by intro p hp; cases hp
  used := by intro p hp; cases hp
  last := by intro p hp; cases hp
  inner := by intro p hp; cases hp
  apart := List.Pairwise.nil
  owner := by
    intro k _ h
    rw [new_final_bit] at h
    exact Bool.noConfusion h

theorem LiveInv_alloc (a a1 : MemoryAllocator) (L : List (Nat × Nat)) (size n i : Nat)
    (inv : LiveInv a L) (hn : blocksNeeded size = (n : Int)) (h1 : 1 ≤ n)
    (h : Allocate a size = .ok (a1, Ptr.block (i : Int))) : LiveInv a1 ((i, n) :: L) := by
  obtain ⟨hin, hrun, _, hf, hl⟩ := Allocate_block_inv a a1 size n i hn h1 h
  have hfreeold : ∀ p ∈ L, ∀ k, p.1 ≤ k → k < p.1 + p.2 → ¬ (i ≤ k ∧ k < i + n) := by
    intro p hp k hk1 hk2 hk
    have h3 := hrun k hk.1 hk.2
    rw [inv.used p hp k hk1 hk2] at h3
    exact Bool.noConfusion h3
  have hnofinal : ∀ k, i ≤ k → k < i + n → a.finalBlocksMask.bit k = false := by
    intro k hk1 hk2
    cases hb : a.finalBlocksMask.bit k with
    | false => rfl
    | true =>
      obtain ⟨p, hp, hkp⟩ := inv.owner k (by omega) hb
      have hs := inv.shape p hp
      exact absurd ⟨hk1, hk2⟩ (hfreeold p hp k (by omega) (by omega))
  refine ⟨?_, ?_, ?_, ?_, ?_, ?_⟩
  · intro p hp
    rcases List.mem_cons.1 hp with rfl | hp
    · exact ⟨h1, hin⟩
    · exact inv.shape p hp
  · intro p hp k hk1 hk2
    rw [hf]
    rcases List.mem_cons.1 hp with rfl | hp
    · have : i ≤ k ∧ k < i + n := ⟨hk1, hk2⟩
      rw [decide_eq_true this]
      simp
    · rw [inv.used p hp k hk1 hk2]
      rfl
  · intro p hp
    rw [hl]
    rcases List.mem_cons.1 hp with rfl | hp
    · simp
    · rw [inv.last p hp]
      rfl
  · intro p hp k hk1 hk2
    rw [hl]
    rcases List.mem_cons.1 hp with rfl | hp
    · have hne : ¬ (k = i + n - 1) := by
        show ¬ (k = i + n - 1)
        have : k < i + n - 1 := hk2
        omega
      rw [hnofinal k hk1 (by have : k < i + n - 1 := hk2; omega), decide_eq_false hne]
      rfl
    · have hs := inv.shape p hp
      have hne : ¬ (k = i + n - 1) := by
        intro e
        exact hfreeold p hp k hk1 (by omega) (by omega)
      rw [inv.inner p hp k hk1 hk2, decide_eq_false hne]
      rfl
  · rw [List.pairwise_cons]
    refine ⟨?_, inv.apart⟩
    intro p hp
    have hs := inv.shape p hp
    refine ⟨h1, hs.1, ?_⟩
    by_contra hov
    have hk := hfreeold p hp (max i p.1) (by omega) (by omega)
    omega
  · intro k hk hb
    rw [hl, Bool.or_eq_true, decide_eq_true_eq] at hb
    rcases hb with hb | hb
    · obtain ⟨p, hp, hkp⟩ := inv.owner k hk hb
      exact ⟨p, List.mem_cons_of_mem _ hp, hkp⟩
    · exact ⟨(i, n), List.mem_cons_self _ _, hb⟩

theorem LiveInv_free_result (a : MemoryAllocator) (L : List (Nat × Nat)) (s n : Nat)
    (inv : LiveInv a L) (hmem : (s, n) ∈ L) :
    ∃ a1, Free a (Ptr.block (s : Int)) = .ok a1 ∧
      (∀ k, a1.freeBlocksMask.bit k
          = (a.freeBlocksMask.bit k || decide (s ≤ k ∧ k < s + n - 1))) ∧
      (∀ k, a1.finalBlocksMask.bit k
          = (a.finalBlocksMask.bit k && !decide (k = s + n - 1))) := by
  have hs := inv.shape (s, n) hmem
  exact Free_live a s (s + n - 1) (by have := hs.1; show s ≤ s + n - 1; omega)
    (by have := hs.2; show s + n - 1 < BlockCount; omega)
    (inv.inner (s, n) hmem) (inv.last (s, n) hmem)

theorem LiveInv_free (a a1 : MemoryAllocator) (L : List (Nat × Nat)) (s n : Nat)
    (inv : LiveInv a L) (hmem : (s, n) ∈ L)
    (h : Free a (Ptr.block (s : Int)) = .ok a1) : LiveInv a1 (L.erase (s, n)) := by
  obtain ⟨a2, hF, hf, hl⟩ := LiveInv_free_result a L s n inv hmem
  rw [hF] at h
  simp only [Outcome.ok.injEq] at h
  subst h
  have hs := inv.shape (s, n) hmem
  have hs1 : 1 ≤ n := hs.1
  have hnodup : L.Nodup := inv.apart.imp (fun {p q} hpq => Apart_ne p q hpq)
  have hother : ∀ p ∈ L.erase (s, n), p ∈ L ∧ Apart p (s, n) := by
    intro p hp
    have hp2 := (List.Nodup.mem_erase_iff hnodup).1 hp
    exact ⟨hp2.2, inv.apart.forall Apart_symm hp2.2 hmem hp2.1⟩
  refine ⟨?_, ?_, ?_, ?_, ?_, ?_⟩
  · intro p hp
    exact inv.shape p (hother p hp).1
  · intro p hp k hk1 hk2
    obtain ⟨hpL, _, _, hd⟩ := hother p hp
    have hd2 : p.1 + p.2 ≤ s ∨ s + n ≤ p.1 := hd
    have hne : ¬ (s ≤ k ∧ k < s + n - 1) := by omega
    rw [hf, inv.used p hpL k hk1 hk2, decide_eq_false hne]
    rfl
  · intro p hp
    obtain ⟨hpL, hp1, _, hd⟩ := hother p hp
    have hd2 : p.1 + p.2 ≤ s ∨ s + n ≤ p.1 := hd
    have hne : ¬ (p.1 + p.2 - 1 = s + n - 1) := by omega
    rw [hl, inv.last p hpL, decide_eq_false hne]
    rfl
  · intro p hp k hk1 hk2
    rw [hl, inv.inner p (hother p hp).1 k hk1 hk2]
    rfl
  · exact inv.apart.sublist (List.erase_sublist _ _)
  · intro k hk hb
    rw [hl, Bool.and_eq_true, Bool.not_eq_true', decide_eq_false_iff_not] at hb
    obtain ⟨p, hp, hkp⟩ := inv.owner k hk hb.1
    refine ⟨p, (List.Nodup.mem_erase_iff hnodup).2 ⟨?_, hp⟩, hkp⟩
    intro e
    subst e
    exact hb.2 hkp

theorem needsBlock_toNat (size : Nat) (h : needsBlock size) :
    blocksNeeded size = (((blocksNeeded size).toNat : Nat) : Int) ∧
      1 ≤ (blocksNeeded size).toNat := by
  have h1 : 1 ≤ blocksNeeded size := h
  omega

theorem ReachableBy_needsBlock_inv (a : MemoryAllocator) (L : List (Nat × Nat))
    (h : ReachableBy needsBlock a L) : LiveInv a L := by
  induction h with
  | init => exact LiveInv_init
  | allocNull size _ hsize hA ih =>
    obtain ⟨e, h1⟩ := needsBlock_toNat size hsize
    rw [Allocate_null_inv _ _ size _ e h1 hA]
    exact ih
  | alloc size i _ hsize hA ih =>
    obtain ⟨e, h1⟩ := needsBlock_toNat size hsize
    exact LiveInv_alloc _ _ _ size _ i ih e h1 hA
  | free i n _ hmem hF ih =>
    exact LiveInv_free _ _ _ i n ih hmem hF

/-! ## Consequences of the invariant -/

theorem live_ranges_apart (a : MemoryAllocator) (L : List (Nat × Nat))
    (h : ReachableBy needsBlock a L) : L.Pairwise Apart :=
  (ReachableBy_needsBlock_inv a L h).apart

theorem Free_live_allocation (a : MemoryAllocator) (L : List (Nat × Nat))
    (h : ReachableBy needsBlock a L) (s n : Nat) (hmem : (s, n) ∈ L) :
    ∃ (free1 : Mask) (a1 : MemoryAllocator),
      freeLoop a.finalBlocksMask (BlockCount + 1) (s : Int) a.freeBlocksMask
        = .ok (free1, ((s + n - 1 : Nat) : Int)) ∧
      Free a (Ptr.block (s : Int)) = .ok a1 ∧
      (∀ k, k < BlockCount → (a1.isFree k ↔ a.isFree k ∨ (s ≤ k ∧ k < s + n - 1))) ∧
      (∀ k, k < BlockCount → (a1.isFinal k ↔ a.isFinal k ∧ k ≠ s + n - 1)) := by
  have inv := ReachableBy_needsBlock_inv a L h
  have hs := inv.shape (s, n) hmem
  have h1 : 1 ≤ n := hs.1
  have h2 : s + n ≤ BlockCount := hs.2
  obtain ⟨free1, hloop, _⟩ := freeLoop_spec a.finalBlocksMask (BlockCount + 1) s (s + n - 1)
    a.freeBlocksMask (by omega) (by omega) (by omega) (inv.inner (s, n) hmem)
    (inv.last (s, n) hmem)
  obtain ⟨a1, hF, hf, hl⟩ := LiveInv_free_result a L s n inv hmem
  refine ⟨free1, a1, hloop, hF, ?_, ?_⟩
  · intro k hk
    rw [isFree_iff a1 k hk, isFree_iff a k hk, hf k, Bool.or_eq_true, decide_eq_true_eq]
  · intro k hk
    rw [isFinal_iff a1 k hk, isFinal_iff a k hk, hl k, Bool.and_eq_true, Bool.not_eq_true',
      decide_eq_false_iff_not]

theorem finalCount_eq_length (a : MemoryAllocator) (L : List (Nat × Nat))
    (h : ReachableBy needsBlock a L) : finalCount a = L.length := by
  have inv := ReachableBy_needsBlock_inv a L h
  have hnodup : (L.map (fun p => p.1 + p.2 - 1)).Nodup := by
    unfold List.Nodup
    rw [List.pairwise_map]
    refine inv.apart.imp ?_
    intro p q hpq
    obtain ⟨hp, hq, hd⟩ := hpq
    show p.1 + p.2 - 1 ≠ q.1 + q.2 - 1
    omega
  have hset : (Finset.range BlockCount).filter (fun k => a.isFinal k)
      = (L.map (fun p => p.1 + p.2 - 1)).toFinset := by
    ext k
    simp only [Finset.mem_filter, Finset.mem_range, List.mem_toFinset, List.mem_map]
    constructor
    · rintro ⟨hk, hfin⟩
      obtain ⟨p, hp, hkp⟩ := inv.owner k hk ((isFinal_iff a k hk).1 hfin)
      exact ⟨p, hp, hkp.symm⟩
    · rintro ⟨p, hp, hkp⟩
      have hs := inv.shape p hp
      have hk : k < BlockCount := by omega
      refine ⟨hk, (isFinal_iff a k hk).2 ?_⟩
      rw [← hkp]
      exact inv.last p hp
  unfold finalCount
  rw [hset, List.toFinset_card_of_nodup hnodup, List.length_map]

theorem Allocate_block_inv_small (a a1 : MemoryAllocator) (size i : Nat)
    (h1 : 1 ≤ size) (h2 : size ≤ 2147483640)
    (h : Allocate a size = .ok (a1, Ptr.block (i : Int))) :
    i + (size + 7) / 8 ≤ BlockCount ∧ runFree a.freeBlocksMask i ((size + 7) / 8) ∧
      (∀ j, j < i → ¬ runFree a.freeBlocksMask j ((size + 7) / 8)) ∧
      (∀ k, a1.freeBlocksMask.bit k
          = (a.freeBlocksMask.bit k && !decide (i ≤ k ∧ k < i + (size + 7) / 8))) ∧
      (∀ k, a1.finalBlocksMask.bit k
          = (a.finalBlocksMask.bit k || decide (k = i + (size + 7) / 8 - 1))) :=
  Allocate_block_inv a a1 size ((size + 7) / 8) i (blocksNeeded_eq size h2) (by omega) h

theorem double_free_walks_into_next (a b : Nat) (s1 s2 : MemoryAllocator) (pA pB : Nat)
    (ha1 : 1 ≤ a) (ha2 : a ≤ 2147483640) (hb1 : 1 ≤ b) (hb2 : b ≤ 2147483640)
    (hA : Allocate new a = .ok (s1, Ptr.block (pA : Int)))
    (hB : Allocate s1 b = .ok (s2, Ptr.block (pB : Int))) :
    pA = 0 ∧ pB = ceilBlocks a ∧ pB + ceilBlocks b ≤ BlockCount ∧
    ∃ s3 s4 : MemoryAllocator,
      Free s2 (Ptr.block (pA : Int)) = .ok s3 ∧ Free s3 (Ptr.block (pA : Int)) = .ok s4 ∧
      (∀ k, pB ≤ k → k < pB + ceilBlocks b - 1 → ¬ s3.isFree k ∧ s4.isFree k) ∧
      ¬ s4.isFree (pB + ceilBlocks b - 1) ∧
      s3.isFinal (pB + ceilBlocks b - 1) ∧ ¬ s4.isFinal (pB + ceilBlocks b - 1) := by
  have hB0 : BlockCount = 32768 := rfl
  have hca : ceilBlocks a = (a + 7) / 8 := rfl
  have hcb : ceilBlocks b = (b + 7) / 8 := rfl
  generalize hna : ceilBlocks a = na at hca ⊢
  generalize hnb : ceilBlocks b = nb at hcb ⊢
  have hna1 : 1 ≤ na := by omega
  have hnb1 : 1 ≤ nb := by omega
  have hIA := Allocate_block_inv_small new s1 a pA ha1 ha2 hA
  have hIB := Allocate_block_inv_small s1 s2 b pB hb1 hb2 hB
  rw [← hca] at hIA
  rw [← hcb] at hIB
  clear hA hB
  obtain ⟨hinA, _, hleastA, hfA, hlA⟩ := hIA
  have hpA : pA = 0 := by
    by_contra hne
    exact hleastA 0 (by omega) (fun k _ _ => new_free_bit k)
  subst hpA
  have f1 : ∀ k, s1.freeBlocksMask.bit k = decide (na ≤ k) := by
    intro k
    rw [hfA, new_free_bit, Bool.true_and, ← decide_not]
    exact decide_eq_decide.2 (by omega)
  have l1 : ∀ k, s1.finalBlocksMask.bit k = decide (k = na - 1) := by
    intro k
    rw [hlA, new_final_bit, Bool.false_or]
    exact decide_eq_decide.2 (by omega)
  obtain ⟨hinB, hrunB, hleastB, hfB, hlB⟩ := hIB
  have hpB1 : na ≤ pB := by
    have h := hrunB pB (le_refl pB) (by omega)
    rw [f1, decide_eq_true_eq] at h
    exact h
  have hpB : pB = na := by
    by_contra hne
    exact hleastB na (by omega) (fun k hk1 _ => by rw [f1, decide_eq_true_eq]; exact hk1)
  subst hpB
  have f2 : ∀ k, s2.freeBlocksMask.bit k = decide (pB + nb ≤ k) := by
    intro k
    rw [hfB, f1, ← decide_not, ← Bool.decide_and]
    exact decide_eq_decide.2 (by omega)
  have l2 : ∀ k, s2.finalBlocksMask.bit k = decide (k = pB - 1 ∨ k = pB + nb - 1) := by
    intro k
    rw [hlB, l1, ← Bool.decide_or]
  obtain ⟨s3, hF3, hf3, hl3⟩ := Free_live s2 0 (pB - 1) (by omega) (by omega)
    (fun k _ hk => by rw [l2, decide_eq_false_iff_not]; omega)
    (by rw [l2, decide_eq_true_eq]; omega)
  have f3 : ∀ k, s3.freeBlocksMask.bit k = decide (k < pB - 1 ∨ pB + nb ≤ k) := by
    intro k
    rw [hf3, f2, ← Bool.decide_or]
    exact decide_eq_decide.2 (by omega)
  have l3 : ∀ k, s3.finalBlocksMask.bit k = decide (k = pB + nb - 1) := by
    intro k
    rw [hl3, l2, ← decide_not, ← Bool.decide_and]
    exact decide_eq_decide.2 (by omega)
  obtain ⟨s4, hF4, hf4, hl4⟩ := Free_live s3 0 (pB + nb - 1) (by omega) (by omega)
    (fun k _ hk => by rw [l3, decide_eq_false_iff_not]; omega)
    (by rw [l3, decide_eq_true_eq])
  have f4 : ∀ k, s4.freeBlocksMask.bit k = decide (k < pB + nb - 1 ∨ pB + nb ≤ k) := by
    intro k
    rw [hf4, f3, ← Bool.decide_or]
    exact decide_eq_decide.2 (by omega)
  have l4 : ∀ k, s4.finalBlocksMask.bit k = false := by
    intro k
    rw [hl4, l3]
    cases decide (k = pB + nb - 1) <;> rfl
  refine ⟨rfl, rfl, hinB, s3, s4, hF3, hF4, ?_, ?_, ?_, ?_⟩
  · intro k hk1 hk2
    constructor
    · rw [isFree_iff s3 k (by omega), f3, decide_eq_true_eq]
      omega
    · rw [isFree_iff s4 k (by omega), f4, decide_eq_true_eq]
      omega
  · rw [isFree_iff s4 _ (by omega), f4, decide_eq_true_eq]
    omega
  · rw [isFinal_iff s3 _ (by omega), l3, decide_eq_true_eq]
  · rw [isFinal_iff s4 _ (by omega), l4]
    exact Bool.noConfusion

/-! ## The pointer returned by `Allocate` -/

theorem allocateResult_of_Allocate (a a1 : MemoryAllocator) (size : Nat) (p : Ptr)
    (h : Allocate a size = .ok (a1, p)) : allocateResult a size = .ok p := by
  unfold Allocate at h
  unfold allocateResult
  dsimp only at h ⊢
  by_cases hgt : blocksNeeded size > Int.ofNat BlockCount
  · rw [if_pos hgt] at h ⊢
    simp only [Outcome.ok.injEq, Prod.mk.injEq] at h
    rw [h.2]
  · rw [if_neg hgt] at h ⊢
    cases hs : scanLoop a.freeBlocksMask (blocksNeeded size) BlockCount 0 0 (-1) with
    | ok res =>
      obtain ⟨bf, fi⟩ := res
      rw [hs] at h
      dsimp only at h ⊢
      by_cases hfi : fi > -1
      · rw [if_pos hfi] at h ⊢
        cases hc : clearLoop (fi + blocksNeeded size - fi).toNat fi a.freeBlocksMask with
        | ok free1 =>
          rw [hc] at h
          dsimp only at h
          cases hsb : setBlock (fi + blocksNeeded size - 1) a.finalBlocksMask with
          | ok final1 =>
            rw [hsb] at h
            simp only [Outcome.ok.injEq, Prod.mk.injEq] at h
            rw [h.2]
          | outOfBounds k => rw [hsb] at h; exact Outcome.noConfusion h
          | outOfFuel => rw [hsb] at h; exact Outcome.noConfusion h
        | outOfBounds k => rw [hc] at h; exact Outcome.noConfusion h
        | outOfFuel => rw [hc] at h; exact Outcome.noConfusion h
      · rw [if_neg hfi] at h ⊢
        simp only [Outcome.ok.injEq, Prod.mk.injEq] at h
        rw [h.2]
    | outOfBounds k => rw [hs] at h; exact Outcome.noConfusion h
    | outOfFuel => rw [hs] at h; exact Outcome.noConfusion h

theorem allocateResult_zero_blocks (a : MemoryAllocator) (size : Nat)
    (hn : blocksNeeded size = 0) (hfree : ∀ k, a.freeBlocksMask.bit k = true) :
    allocateResult a size = .ok (Ptr.block 0) := by
  have hscan := scanLoop_all_free a.freeBlocksMask 0 (le_refl 0) hfree
    BlockCount 0 (-1) (by omega) (by intro h; omega) (by intro _; decide)
  rw [Nat.cast_zero] at hscan
  have hle : ¬ ((0 : Int) > Int.ofNat BlockCount) := by
    simp only [Int.ofNat_eq_coe]
    omega
  unfold allocateResult
  dsimp only
  rw [hn, if_neg hle, hscan]
  dsimp only
  rw [if_pos (by omega)]

/-! ## States reached by `Allocate` alone -/

theorem setBlock_ok_mono (index : Int) (m m1 : Mask) (h : setBlock index m = .ok m1)
    (k : Nat) (hk : m.bit k = true) : m1.bit k = true := by
  unfold setBlock at h
  dsimp only at h
  split at h
  · simp only [Outcome.ok.injEq] at h
    rw [← h]
    unfold Mask.bit Mask.store
    unfold Mask.bit at hk
    by_cases hw : k / 8 = toSizeT index / sizeofMaskType
    · rw [if_pos hw, Nat.testBit_or, ← hw, hk]
      rfl
    · rw [if_neg hw]
      exact hk
  · exact Outcome.noConfusion h

theorem Allocate_nonpos_inv (a a1 : MemoryAllocator) (size : Nat) (p : Ptr)
    (hn : blocksNeeded size ≤ 0) (h : Allocate a size = .ok (a1, p)) :
    a1.freeBlocksMask = a.freeBlocksMask ∧
      ∀ k, a.finalBlocksMask.bit k = true → a1.finalBlocksMask.bit k = true := by
  obtain ⟨bf1, _, hscan, _, _⟩ := scanLoop_nonpos a.freeBlocksMask (blocksNeeded size) hn
    BlockCount 0 0 (-1) (by omega) (by omega) (fun _ => rfl) (by intro h; omega)
    (by intro k hk1 hk2; omega) (by intro h; omega)
  rw [Nat.cast_zero] at hscan
  generalize (if bf1 = 0 then (-1 : Int) else ((BlockCount - bf1 : Nat) : Int)) = fi at hscan
  have hle : ¬ (blocksNeeded size > Int.ofNat BlockCount) := by
    simp only [Int.ofNat_eq_coe]
    omega
  have hcount : (fi + blocksNeeded size - fi).toNat = 0 := by omega
  unfold Allocate at h
  dsimp only at h
  rw [if_neg hle, hscan] at h
  dsimp only at h
  by_cases hfi : fi > -1
  · rw [if_pos hfi, hcount, clearLoop] at h
    dsimp only at h
    cases hsb : setBlock (fi + blocksNeeded size - 1) a.finalBlocksMask with
    | ok final1 =>
      rw [hsb] at h
      simp only [Outcome.ok.injEq, Prod.mk.injEq] at h
      rw [← h.1]
      exact ⟨rfl, fun k hk => setBlock_ok_mono _ _ _ hsb k hk⟩
    | outOfBounds k => rw [hsb] at h; exact Outcome.noConfusion h
    | outOfFuel => rw [hsb] at h; exact Outcome.noConfusion h
  · rw [if_neg hfi] at h
    simp only [Outcome.ok.injEq, Prod.mk.injEq] at h
    rw [← h.1]
    exact ⟨rfl, fun k hk => hk⟩

theorem PrefixInv_step (a a1 : MemoryAllocator) (L : List (Nat × Nat)) (m size : Nat)
    (p : Ptr) (x : Nat × Nat) (inv : PrefixInv a L m) (h : Allocate a size = .ok (a1, p)) :
    (p = Ptr.null → ∃ m1, PrefixInv a1 L m1) ∧
      ((∃ i : Nat, p = Ptr.block (i : Int)) → ∃ m1, PrefixInv a1 (x :: L) m1) := by
  obtain ⟨hm, hfree, hfin, hlive⟩ := inv
  by_cases hpos : 1 ≤ blocksNeeded size
  · obtain ⟨e, h1⟩ := needsBlock_toNat size hpos
    generalize (blocksNeeded size).toNat = n at e h1
    clear hpos
    constructor
    · intro hp
      subst hp
      rw [Allocate_null_inv a a1 size n e h1 h]
      exact ⟨m, hm, hfree, hfin, hlive⟩
    · rintro ⟨i, hp⟩
      subst hp
      obtain ⟨hin, hrun, hleast, hf, hl⟩ := Allocate_block_inv a a1 size n i e h1 h
      clear e h
      have hmi : m ≤ i := by
        have hb := hrun i (le_refl i) (by omega)
        rw [hfree i (by omega), decide_eq_true_eq] at hb
        exact hb
      have him : i = m := by
        by_contra hne
        apply hleast m (by omega)
        intro k hk1 hk2
        rw [hfree k (by omega), decide_eq_true_eq]
        exact hk1
      subst him
      refine ⟨i + n, hin, ?_, ?_, fun _ => Nat.succ_pos _⟩
      · intro k hk
        rw [hf, hfree k hk, ← decide_not, ← Bool.decide_and]
        exact decide_eq_decide.2 (by omega)
      · intro _
        rw [hl]
        simp
  · have hn : blocksNeeded size ≤ 0 := by omega
    clear hpos
    obtain ⟨hfeq, hmono⟩ := Allocate_nonpos_inv a a1 size p hn h
    clear hn h
    have key : ∀ L1 : List (Nat × Nat), (0 < m → 0 < L1.length) → PrefixInv a1 L1 m :=
      fun L1 hL1 => ⟨hm, fun k hk => by rw [hfeq]; exact hfree k hk,
        fun hpos => hmono _ (hfin hpos), hL1⟩
    exact ⟨fun _ => ⟨m, key L hlive⟩, fun _ => ⟨m, key (x :: L) (fun _ => Nat.succ_pos _)⟩⟩

theorem AllocReachable_inv (a : MemoryAllocator) (L : List (Nat × Nat))
    (h : AllocReachable a L) : ∃ m, PrefixInv a L m := by
  induction h with
  | init =>
    refine ⟨0, Nat.zero_le _, ?_, fun h => absurd h (Nat.lt_irrefl 0),
      fun h => absurd h (Nat.lt_irrefl 0)⟩
    intro k _
    rw [new_free_bit]
    exact (decide_eq_true (Nat.zero_le k)).symm
  | allocNull size _ hA ih =>
    obtain ⟨m, inv⟩ := ih
    exact (PrefixInv_step _ _ _ m size Ptr.null (0, 0) inv hA).1 rfl
  | alloc size i _ hA ih =>
    obtain ⟨m, inv⟩ := ih
    exact (PrefixInv_step _ _ _ m size _ _ inv hA).2 ⟨i, rfl⟩

theorem AllocReachable_Reachable (a : MemoryAllocator) (L : List (Nat × Nat))
    (h : AllocReachable a L) : Reachable a L := by
  induction h with
  | init => exact ReachableBy.init
  | allocNull size _ hA ih => exact ReachableBy.allocNull size ih trivial hA
  | alloc size i _ hA ih => exact ReachableBy.alloc size i ih trivial hA

theorem isFree_lt (a : MemoryAllocator) (k : Nat) (hk : k ≤ BlockCount) (h : a.isFree k) :
    k < BlockCount := by
  have hB : BlockCount = 32768 := rfl
  by_contra hne
  unfold MemoryAllocator.isFree at h
  rw [isBlockSet_out _ _ (Or.inr (by omega)) (by omega) (by omega)] at h
  exact Outcome.noConfusion h

theorem PrefixInv_ends (a : MemoryAllocator) (L : List (Nat × Nat)) (m k : Nat)
    (inv : PrefixInv a L m) (hk : k < BlockCount) (hend : a.endsZeroRun k) :
    0 < m ∧ k = m - 1 := by
  obtain ⟨hm, hfree, _, _⟩ := inv
  obtain ⟨hnot, hnext⟩ := hend
  rw [isFree_iff a k hk, hfree k hk, decide_eq_true_eq] at hnot
  rcases hnext with hnext | hnext
  · omega
  · have hk1 := isFree_lt a (k + 1) (by omega) hnext
    rw [isFree_iff a (k + 1) hk1, hfree (k + 1) hk1, decide_eq_true_eq] at hnext
    omega

/-! ## Earlier facts kept as lemmas -/

/-- On a new allocator `Allocate(0)` computes
`blocksNeeded = 0`, the search loop runs to the end with `freeIndex = 0`, and
line 169 calls `setBlock(endIndex - 1, finalBlocksMask)` with index -1, outside
the mask array, where the embedding stops. -/
theorem Allocate_new_zero : blocksNeeded 0 = 0 ∧ Allocate new 0 = .outOfBounds (-1) :=
  ⟨by decide, Allocate_zero_blocks new 0 (by decide) new_free_bit⟩

/-- In every state reachable from a new allocator by
`Allocate` calls that need at least one block and by `Free` calls on the
pointers of live allocations, every live allocation lies inside the pool, all
its blocks have free bit 0, and its last block has the final bit set. -/
theorem live_allocations_marked (a : MemoryAllocator) (L : List (Nat × Nat))
    (h : ReachableBy needsBlock a L) (s n : Nat) (hmem : (s, n) ∈ L) :
    1 ≤ n ∧ s + n ≤ BlockCount ∧ (∀ k, s ≤ k → k < s + n → ¬ a.isFree k) ∧
      a.isFinal (s + n - 1) := by
  have inv := ReachableBy_needsBlock_inv a L h
  have hs := inv.shape (s, n) hmem
  have h1 : 1 ≤ n := hs.1
  have h2 : s + n ≤ BlockCount := hs.2
  refine ⟨h1, h2, ?_, ?_⟩
  · intro k hk1 hk2 hfree
    rw [isFree_iff a k (by omega), inv.used (s, n) hmem k hk1 hk2] at hfree
    exact Bool.noConfusion hfree
  · rw [isFinal_iff a _ (by omega)]
    exact inv.last (s, n) hmem

/-- An instance of `live_allocations_marked`: the state after `Allocate(8)` on a new
allocator, with the one live allocation at block 0. -/
theorem live_allocations_marked_witness :
    (ReachableBy needsBlock ⟨new.freeBlocksMask.clearBit 0, new.finalBlocksMask.setBit 0⟩
        [(0, 1)] ∧ ((0, 1) : Nat × Nat) ∈ [((0, 1) : Nat × Nat)]) ∧
    (1 ≤ 1 ∧ 0 + 1 ≤ BlockCount ∧
      (∀ k, 0 ≤ k → k < 0 + 1 → ¬ MemoryAllocator.isFree
        ⟨new.freeBlocksMask.clearBit 0, new.finalBlocksMask.setBit 0⟩ k) ∧
      MemoryAllocator.isFinal
        ⟨new.freeBlocksMask.clearBit 0, new.finalBlocksMask.setBit 0⟩ (0 + 1 - 1)) :=
  have hreach : ReachableBy needsBlock
      ⟨new.freeBlocksMask.clearBit 0, new.finalBlocksMask.setBit 0⟩ [(0, 1)] :=
    ReachableBy.alloc 8 0 ReachableBy.init (by unfold needsBlock; decide) rfl
  ⟨⟨hreach, List.mem_singleton.2 rfl⟩,
    live_allocations_marked _ _ hreach 0 1 (List.mem_singleton.2 rfl)⟩

/-! ## The claims -/

/-- C1 fails on the code.  After `Allocate(262136)` has taken blocks
`[0, 32767)` of a new allocator, only block 32767 is free.  `Allocate(16)` needs
2 blocks; its search loop ends with `blocksFound = 1` and `freeIndex = 32767`,
the test `freeIndex > -1` succeeds, and the marking loop reaches block 32768,
outside the pool and outside the mask array. -/
theorem Allocate_marks_behind_pool :
    ∃ a : MemoryAllocator, Allocate new 262136 = .ok (a, Ptr.block 0) ∧
      blocksNeeded 16 = 2 ∧
      scanLoop a.freeBlocksMask 2 BlockCount 0 0 (-1) = .ok (1, 32767) ∧
      Allocate a 16 = .outOfBounds 32768 := by
  have hB : BlockCount = 32768 := rfl
  obtain ⟨a, hA, hf, _⟩ := Allocate_at new 262136 32767 0 (by decide) (by omega) (by omega)
    (fun k _ _ => new_free_bit k) (fun j hj => by omega)
  rw [Nat.cast_zero] at hA
  have f1 : ∀ k, a.freeBlocksMask.bit k = decide (32767 ≤ k) := by
    intro k
    rw [hf, new_free_bit, Bool.true_and, ← decide_not]
    exact decide_eq_decide.2 (by omega)
  have hno : ∀ j, j + 2 ≤ BlockCount → ¬ runFree a.freeBlocksMask j 2 := by
    intro j hj hr
    have h := hr j (le_refl j) (by omega)
    rw [f1, decide_eq_true_eq] at h
    omega
  have hlast : a.freeBlocksMask.bit (BlockCount - 1) = true := by
    rw [f1, decide_eq_true_eq]
    omega
  obtain ⟨bf, hb1, hb2, hscan, hover⟩ :=
    (Allocate_not_found a 16 2 (by decide) (by omega) (by omega) hno).2 hlast
  have hbf : bf = 1 := by omega
  subst hbf
  refine ⟨a, hA, by decide, ?_, hover⟩
  have e : ((BlockCount - 1 : Nat) : Int) = 32767 := by decide
  rw [e] at hscan
  exact hscan

/-- C2 fails on the code.  `Free` stops at the block whose final bit is set
and never sets the free bit of that block again, so after `Allocate(4)` (block 0) and
`Free` block 0 is still marked in use and the next `Allocate(4)` returns
block 1. -/
theorem Allocate_Free_Allocate_moves :
    ∃ a1 a2 a3 : MemoryAllocator, Allocate new 4 = .ok (a1, Ptr.block 0) ∧
      Free a1 (Ptr.block 0) = .ok a2 ∧ ¬ a2.isFree 0 ∧
      Allocate a2 4 = .ok (a3, Ptr.block 1) :=
  ⟨_, _, _, rfl, rfl, by decide, rfl⟩

/-- C3 fails on the code.  After `Allocate(262128)` has taken blocks
`[0, 32766)` of a new allocator, no run of `ceil(24 / 8) = 3` free blocks is
left, and still `Allocate(24)` does not return null: it takes the free tail
`[32766, 32768)` as the run and marks block 32768, behind the bitmap. -/
theorem Allocate_exhausted_not_null :
    ∃ a : MemoryAllocator, Allocate new 262128 = .ok (a, Ptr.block 0) ∧
      (1 ≤ ceilBlocks 24 ∧ ceilBlocks 24 ≤ BlockCount) ∧
      (∀ j, j + ceilBlocks 24 ≤ BlockCount →
        ¬ ∀ k, j ≤ k → k < j + ceilBlocks 24 → a.isFree k) ∧
      Allocate a 24 = .outOfBounds 32768 := by
  have hB : BlockCount = 32768 := rfl
  have hc : ceilBlocks 24 = 3 := rfl
  obtain ⟨a, hA, hf, _⟩ := Allocate_at new 262128 32766 0 (by decide) (by omega) (by omega)
    (fun k _ _ => new_free_bit k) (fun j hj => by omega)
  rw [Nat.cast_zero] at hA
  have f1 : ∀ k, a.freeBlocksMask.bit k = decide (32766 ≤ k) := by
    intro k
    rw [hf, new_free_bit, Bool.true_and, ← decide_not]
    exact decide_eq_decide.2 (by omega)
  have hno : ∀ j, j + 3 ≤ BlockCount → ¬ runFree a.freeBlocksMask j 3 := by
    intro j hj hr
    have h := hr j (le_refl j) (by omega)
    rw [f1, decide_eq_true_eq] at h
    omega
  have hlast : a.freeBlocksMask.bit (BlockCount - 1) = true := by
    rw [f1, decide_eq_true_eq]
    omega
  obtain ⟨bf, _, _, _, hover⟩ :=
    (Allocate_not_found a 24 3 (by decide) (by omega) (by omega) hno).2 hlast
  refine ⟨a, hA, ⟨by decide, by decide⟩, ?_, hover⟩
  rw [hc]
  intro j hj hfree
  apply hno j hj
  intro k hk1 hk2
  exact (isFree_iff a k (by omega)).1 (hfree k hk1 hk2)

/-- C4 fails on the code.  `roundUpToPower2` takes its argument as `int`, so
the size `2 ^ 32 + 8`, far above the pool capacity, is truncated to 8: on a new
allocator `Allocate` returns block 0, clears its free bit and sets its final
bit. -/
theorem Allocate_oversized_truncated :
    ∃ a : MemoryAllocator, MemoryPoolSize < 4294967304 ∧ blocksNeeded 4294967304 = 1 ∧
      Allocate new 4294967304 = .ok (a, Ptr.block 0) ∧
      new.isFree 0 ∧ ¬ a.isFree 0 ∧ ¬ new.isFinal 0 ∧ a.isFinal 0 :=
  ⟨_, by decide, by decide, rfl, by decide, by decide, by decide, by decide⟩

/-- C5 fails on the code.  The range test of `Free` compares against
`&memoryPool[MemoryPoolSize]`, so the pointer one block behind the pool,
`&memoryPool[32768]`, passes it; the walk then reads the final bitmap at block
32768, outside the mask array, instead of leaving the bitmaps alone. -/
theorem Free_behind_pool_not_noop (a : MemoryAllocator) :
    ¬ ((0 : Int) ≤ 32768 ∧ (32768 : Int) < (BlockCount : Int)) ∧
      Free a (Ptr.block 32768) = .outOfBounds 32768 := by
  have hB : BlockCount = 32768 := rfl
  constructor
  · omega
  · have h := Free_overrun a 32768 (by omega) (fun k h1 h2 => by omega)
    exact h

/-- C6.  First fit: when `n = ceil(size / blockWidth)` lies in
`[1, BlockCount]` and some run `[j, j + n)` inside the pool is entirely free,
`Allocate(size)` returns the least index `i` of such a run, clears exactly the
free bits of `[i, i + n)`, sets the final bit of `i + n - 1`, and leaves every
other bit of both bitmaps as it was. -/
theorem Allocate_first_fit (a : MemoryAllocator) (size : Nat)
    (h1 : 1 ≤ ceilBlocks size) (h2 : ceilBlocks size ≤ BlockCount)
    (hex : ∃ j, j + ceilBlocks size ≤ BlockCount ∧
      ∀ k, j ≤ k → k < j + ceilBlocks size → a.isFree k) :
    ∃ (i : Nat) (a1 : MemoryAllocator),
      Allocate a size = .ok (a1, Ptr.block (i : Int)) ∧
      i + ceilBlocks size ≤ BlockCount ∧
      (∀ k, i ≤ k → k < i + ceilBlocks size → a.isFree k) ∧
      (∀ j, j + ceilBlocks size ≤ BlockCount →
        (∀ k, j ≤ k → k < j + ceilBlocks size → a.isFree k) → i ≤ j) ∧
      (∀ k, k < BlockCount →
        (a1.isFree k ↔ a.isFree k ∧ ¬ (i ≤ k ∧ k < i + ceilBlocks size))) ∧
      (∀ k, k < BlockCount →
        (a1.isFinal k ↔ a.isFinal k ∨ k = i + ceilBlocks size - 1)) := by
  have hB : BlockCount = 32768 := rfl
  have hc : ceilBlocks size = (size + 7) / 8 := rfl
  generalize hn : ceilBlocks size = n at h1 h2 hex ⊢
  have hsize : size ≤ 2147483640 := by omega
  have hneed : blocksNeeded size = (n : Int) := by
    rw [blocksNeeded_eq size hsize, ← hc, hn]
  obtain ⟨j, hj, hjfree⟩ := hex
  obtain ⟨i, a1, hA, hin, hrun, hleast, hf, hl⟩ := Allocate_found a size n hneed h1
    ⟨j, hj, fun k hk1 hk2 => (isFree_iff a k (by omega)).1 (hjfree k hk1 hk2)⟩
  refine ⟨i, a1, hA, hin, ?_, ?_, ?_, ?_⟩
  · intro k hk1 hk2
    exact (isFree_iff a k (by omega)).2 (hrun k hk1 hk2)
  · intro j1 hj1 hfree1
    by_contra hlt
    apply hleast j1 (by omega)
    intro k hk1 hk2
    exact (isFree_iff a k (by omega)).1 (hfree1 k hk1 hk2)
  · intro k hk
    rw [isFree_iff a1 k hk, isFree_iff a k hk, hf k]
    by_cases hr : i ≤ k ∧ k < i + n
    · rw [decide_eq_true hr]
      simp [hr]
    · rw [decide_eq_false hr]
      simp [hr]
  · intro k hk
    rw [isFinal_iff a1 k hk, isFinal_iff a k hk, hl k]
    by_cases hr : k = i + n - 1
    · rw [decide_eq_true hr]
      simp [hr]
    · rw [decide_eq_false hr]
      simp [hr]

/-- Witness for C6: a request of 16 bytes on a new allocator. -/
theorem Allocate_first_fit_witness :
    (1 ≤ ceilBlocks 16 ∧ ceilBlocks 16 ≤ BlockCount ∧
      ∃ j, j + ceilBlocks 16 ≤ BlockCount ∧
        ∀ k, j ≤ k → k < j + ceilBlocks 16 → new.isFree k) ∧
    ∃ (i : Nat) (a1 : MemoryAllocator),
      Allocate new 16 = .ok (a1, Ptr.block (i : Int)) ∧
      i + ceilBlocks 16 ≤ BlockCount ∧
      (∀ k, i ≤ k → k < i + ceilBlocks 16 → new.isFree k) ∧
      (∀ j, j + ceilBlocks 16 ≤ BlockCount →
        (∀ k, j ≤ k → k < j + ceilBlocks 16 → new.isFree k) → i ≤ j) ∧
      (∀ k, k < BlockCount →
        (a1.isFree k ↔ new.isFree k ∧ ¬ (i ≤ k ∧ k < i + ceilBlocks 16))) ∧
      (∀ k, k < BlockCount →
        (a1.isFinal k ↔ new.isFinal k ∨ k = i + ceilBlocks 16 - 1)) :=
  have hex : ∃ j, j + ceilBlocks 16 ≤ BlockCount ∧
      ∀ k, j ≤ k → k < j + ceilBlocks 16 → new.isFree k :=
    ⟨0, by decide, fun k _ hk =>
      (isFree_iff new k (Nat.lt_of_lt_of_le hk (by decide))).2 (new_free_bit k)⟩
  ⟨⟨by decide, by decide, hex⟩, Allocate_first_fit new 16 (by decide) (by decide) hex⟩

/-- C7 fails on the code at its last step.  On the first eight blocks of a new
allocator the two allocations behave as documented, but `Free` of block 0 sets
the free bit of block 0 only: free becomes `10000111`, not `11000111`, since
the walk stops at block 1 (final bit set) without freeing it. -/
theorem documented_scenario :
    ∃ a1 a2 a3 : MemoryAllocator,
      bitsOf new.freeBlocksMask 8 = [true, true, true, true, true, true, true, true] ∧
      bitsOf new.finalBlocksMask 8 = [false, false, false, false, false, false, false, false] ∧
      Allocate new 16 = .ok (a1, Ptr.block 0) ∧
      bitsOf a1.freeBlocksMask 8 = [false, false, true, true, true, true, true, true] ∧
      bitsOf a1.finalBlocksMask 8 = [false, true, false, false, false, false, false, false] ∧
      Allocate a1 24 = .ok (a2, Ptr.block 2) ∧
      bitsOf a2.freeBlocksMask 8 = [false, false, false, false, false, true, true, true] ∧
      bitsOf a2.finalBlocksMask 8 = [false, true, false, false, true, false, false, false] ∧
      Free a2 (Ptr.block 0) = .ok a3 ∧
      bitsOf a3.freeBlocksMask 8 = [true, false, false, false, false, true, true, true] ∧
      bitsOf a3.finalBlocksMask 8 = [false, false, false, false, true, false, false, false] :=
  ⟨_, _, _, by decide, by decide, rfl, by decide, by decide, rfl, by decide, by decide, rfl,
    by decide, by decide⟩

/-- C8 fails on the code.  The sizes 262120, 8, 8, 8 need 32765 + 1 + 1 + 1 =
32768 blocks and all four allocations succeed on a new allocator.  Each `Free`
leaves the last block of its allocation marked in use, so after the four calls
of `Free` only `[0, 32764)` is free and the first re-allocation,
`Allocate(262120)`, returns null. -/
theorem reallocation_after_free_fails :
    ∃ a1 a2 a3 a4 b1 b2 b3 b4 : MemoryAllocator,
      ceilBlocks 262120 + ceilBlocks 8 + ceilBlocks 8 + ceilBlocks 8 = BlockCount ∧
      Allocate new 262120 = .ok (a1, Ptr.block 0) ∧
      Allocate a1 8 = .ok (a2, Ptr.block 32765) ∧
      Allocate a2 8 = .ok (a3, Ptr.block 32766) ∧
      Allocate a3 8 = .ok (a4, Ptr.block 32767) ∧
      Free a4 (Ptr.block 0) = .ok b1 ∧
      Free b1 (Ptr.block 32765) = .ok b2 ∧
      Free b2 (Ptr.block 32766) = .ok b3 ∧
      Free b3 (Ptr.block 32767) = .ok b4 ∧
      Allocate b4 262120 = .ok (b4, Ptr.null) := by
  have hB : BlockCount = 32768 := rfl
  -- the four allocations
  obtain ⟨a1, hA1, hf1, hl1⟩ := Allocate_at new 262120 32765 0 (by decide) (by omega)
    (by omega) (fun k _ _ => new_free_bit k) (fun j hj => by omega)
  have f1 : ∀ k, a1.freeBlocksMask.bit k = decide (32765 ≤ k) := by
    intro k
    rw [hf1, new_free_bit, Bool.true_and, ← decide_not]
    exact decide_eq_decide.2 (by omega)
  have l1 : ∀ k, a1.finalBlocksMask.bit k = decide (32764 ≤ k ∧ k < 32765) := by
    intro k
    rw [hl1, new_final_bit, Bool.false_or]
    exact decide_eq_decide.2 (by omega)
  obtain ⟨a2, hA2, hf2, hl2⟩ := Allocate_at a1 8 1 32765 (by decide) (by omega) (by omega)
    (fun k h1 h2 => by rw [f1, decide_eq_true_eq]; omega)
    (fun j hj hr => by
      have h := hr j (le_refl j) (by omega)
      rw [f1, decide_eq_true_eq] at h
      omega)
  have f2 : ∀ k, a2.freeBlocksMask.bit k = decide (32766 ≤ k) := by
    intro k
    rw [hf2, f1, ← decide_not, ← Bool.decide_and]
    exact decide_eq_decide.2 (by omega)
  have l2 : ∀ k, a2.finalBlocksMask.bit k = decide (32764 ≤ k ∧ k < 32766) := by
    intro k
    rw [hl2, l1, ← Bool.decide_or]
    exact decide_eq_decide.2 (by omega)
  obtain ⟨a3, hA3, hf3, hl3⟩ := Allocate_at a2 8 1 32766 (by decide) (by omega) (by omega)
    (fun k h1 h2 => by rw [f2, decide_eq_true_eq]; omega)
    (fun j hj hr => by
      have h := hr j (le_refl j) (by omega)
      rw [f2, decide_eq_true_eq] at h
      omega)
  have f3 : ∀ k, a3.freeBlocksMask.bit k = decide (32767 ≤ k) := by
    intro k
    rw [hf3, f2, ← decide_not, ← Bool.decide_and]
    exact decide_eq_decide.2 (by omega)
  have l3 : ∀ k, a3.finalBlocksMask.bit k = decide (32764 ≤ k ∧ k < 32767) := by
    intro k
    rw [hl3, l2, ← Bool.decide_or]
    exact decide_eq_decide.2 (by omega)
  obtain ⟨a4, hA4, hf4, hl4⟩ := Allocate_at a3 8 1 32767 (by decide) (by omega) (by omega)
    (fun k h1 h2 => by rw [f3, decide_eq_true_eq]; omega)
    (fun j hj hr => by
      have h := hr j (le_refl j) (by omega)
      rw [f3, decide_eq_true_eq] at h
      omega)
  have f4 : ∀ k, a4.freeBlocksMask.bit k = decide (32768 ≤ k) := by
    intro k
    rw [hf4, f3, ← decide_not, ← Bool.decide_and]
    exact decide_eq_decide.2 (by omega)
  have l4 : ∀ k, a4.finalBlocksMask.bit k = decide (32764 ≤ k ∧ k < 32768) := by
    intro k
    rw [hl4, l3, ← Bool.decide_or]
    exact decide_eq_decide.2 (by omega)
  -- the four calls of `Free`
  obtain ⟨b1, hF1, hg1, hm1⟩ := Free_live a4 0 32764 (by omega) (by omega)
    (fun k _ hk => by rw [l4, decide_eq_false_iff_not]; omega)
    (by rw [l4, decide_eq_true_eq]; omega)
  have g1 : ∀ k, b1.freeBlocksMask.bit k = decide (k < 32764 ∨ 32768 ≤ k) := by
    intro k
    rw [hg1, f4, ← Bool.decide_or]
    exact decide_eq_decide.2 (by omega)
  have m1 : ∀ k, b1.finalBlocksMask.bit k = decide (32765 ≤ k ∧ k < 32768) := by
    intro k
    rw [hm1, l4, ← decide_not, ← Bool.decide_and]
    exact decide_eq_decide.2 (by omega)
  obtain ⟨b2, hF2, hg2, hm2⟩ := Free_live b1 32765 32765 (by omega) (by omega)
    (fun k h1 h2 => by omega)
    (by rw [m1, decide_eq_true_eq]; omega)
  have g2 : ∀ k, b2.freeBlocksMask.bit k = decide (k < 32764 ∨ 32768 ≤ k) := by
    intro k
    rw [hg2, g1, ← Bool.decide_or]
    exact decide_eq_decide.2 (by omega)
  have m2 : ∀ k, b2.finalBlocksMask.bit k = decide (32766 ≤ k ∧ k < 32768) := by
    intro k
    rw [hm2, m1, ← decide_not, ← Bool.decide_and]
    exact decide_eq_decide.2 (by omega)
  obtain ⟨b3, hF3, hg3, hm3⟩ := Free_live b2 32766 32766 (by omega) (by omega)
    (fun k h1 h2 => by omega)
    (by rw [m2, decide_eq_true_eq]; omega)
  have g3 : ∀ k, b3.freeBlocksMask.bit k = decide (k < 32764 ∨ 32768 ≤ k) := by
    intro k
    rw [hg3, g2, ← Bool.decide_or]
    exact decide_eq_decide.2 (by omega)
  have m3 : ∀ k, b3.finalBlocksMask.bit k = decide (32767 ≤ k ∧ k < 32768) := by
    intro k
    rw [hm3, m2, ← decide_not, ← Bool.decide_and]
    exact decide_eq_decide.2 (by omega)
  obtain ⟨b4, hF4, hg4, _⟩ := Free_live b3 32767 32767 (by omega) (by omega)
    (fun k h1 h2 => by omega)
    (by rw [m3, decide_eq_true_eq]; omega)
  have g4 : ∀ k, b4.freeBlocksMask.bit k = decide (k < 32764 ∨ 32768 ≤ k) := by
    intro k
    rw [hg4, g3, ← Bool.decide_or]
    exact decide_eq_decide.2 (by omega)
  -- the first re-allocation
  have hno : ∀ j, j + 32765 ≤ BlockCount → ¬ runFree b4.freeBlocksMask j 32765 := by
    intro j hj hr
    have h := hr 32764 (by omega) (by omega)
    rw [g4, decide_eq_true_eq] at h
    omega
  have hlast : b4.freeBlocksMask.bit (BlockCount - 1) = false := by
    rw [g4, decide_eq_false_iff_not]
    omega
  have hR := (Allocate_not_found b4 262120 32765 (by decide) (by omega) (by omega) hno).1 hlast
  rw [Nat.cast_zero] at hA1 hF1
  rw [Nat.cast_ofNat] at hA2 hA3 hA4 hF2 hF3 hF4
  exact ⟨a1, a2, a3, a4, b1, b2, b3, b4, by decide, hA1, hA2, hA3, hA4, hF1, hF2, hF3, hF4, hR⟩

/-- C10 fails on the code.  On a new allocator, after `p = Allocate(1024)` and
`Free(p)` no final bit is set any more, so the boundary walk of the second
`Free(p)` passes all 32768 blocks of the pool and reads the final bitmap at
block 32768, outside the mask array. -/
theorem Free_twice_leaves_bitmap :
    ∃ a1 a2 : MemoryAllocator, Allocate new 1024 = .ok (a1, Ptr.block 0) ∧
      Free a1 (Ptr.block 0) = .ok a2 ∧
      Free a2 (Ptr.block 0) = .outOfBounds 32768 := by
  have hB : BlockCount = 32768 := rfl
  obtain ⟨a1, hA, _, hl⟩ := Allocate_at new 1024 128 0 (by decide) (by omega) (by omega)
    (fun k _ _ => new_free_bit k) (fun j hj => by omega)
  have l1 : ∀ k, a1.finalBlocksMask.bit k = decide (k = 127) := by
    intro k
    rw [hl, new_final_bit, Bool.false_or]
  obtain ⟨a2, hF, _, hl2⟩ := Free_live a1 0 127 (by omega) (by omega)
    (fun k _ hk => by rw [l1, decide_eq_false_iff_not]; omega)
    (by rw [l1, decide_eq_true_eq])
  have l2 : ∀ k, a2.finalBlocksMask.bit k = false := by
    intro k
    rw [hl2, l1]
    cases decide (k = 127) <;> rfl
  have hO := Free_overrun a2 0 (by omega) (fun k _ _ => l2 k)
  rw [Nat.cast_zero] at hA hF hO
  exact ⟨a1, a2, hA, hF, hO⟩

/-- C11 fails on the code.  On a new allocator `Allocate(8)` returns block 0
and sets final bit 0; `Allocate(0)` then computes `blocksNeeded = 0`, ends its
search with `freeIndex = 1`, sets final bit `endIndex - 1 = 0` a second time and
returns block 1.  Two allocations are live and one final bit is set. -/
theorem final_count_not_live_count :
    ∃ (a : MemoryAllocator) (L : List (Nat × Nat)),
      Reachable a L ∧ L.length = 2 ∧ finalCount a = 1 := by
  have hB : BlockCount = 32768 := rfl
  obtain ⟨a1, hA1, hf1, hl1⟩ := Allocate_at new 8 1 0 (by decide) (by omega) (by omega)
    (fun k _ _ => new_free_bit k) (fun j hj => by omega)
  have f1 : ∀ k, a1.freeBlocksMask.bit k = decide (1 ≤ k) := by
    intro k
    rw [hf1, new_free_bit, Bool.true_and, ← decide_not]
    exact decide_eq_decide.2 (by omega)
  have l1 : ∀ k, a1.finalBlocksMask.bit k = decide (k = 0) := by
    intro k
    rw [hl1, new_final_bit, Bool.false_or]
  have hA2 := Allocate_zero_tail a1 0 1 (by decide) (by omega) (by omega)
    (by rw [f1, decide_eq_false_iff_not]; omega)
    (fun k hk1 _ => by rw [f1, decide_eq_true_eq]; omega)
  have hreach : Reachable ⟨a1.freeBlocksMask, a1.finalBlocksMask.setBit (1 - 1)⟩
      [(1, (blocksNeeded 0).toNat), (0, (blocksNeeded 8).toNat)] :=
    ReachableBy.alloc 0 1 (ReachableBy.alloc 8 0 ReachableBy.init trivial hA1) trivial hA2
  refine ⟨_, _, hreach, rfl, ?_⟩
  have hset : (Finset.range BlockCount).filter
      (fun k => MemoryAllocator.isFinal
        ⟨a1.freeBlocksMask, a1.finalBlocksMask.setBit (1 - 1)⟩ k) = {0} := by
    ext k
    simp only [Finset.mem_filter, Finset.mem_range, Finset.mem_singleton]
    constructor
    · rintro ⟨hk, hfin⟩
      rw [isFinal_iff _ _ hk] at hfin
      have h2 : (a1.finalBlocksMask.setBit (1 - 1)).bit k = true := hfin
      rw [bit_setBit, l1, Bool.or_eq_true, decide_eq_true_eq] at h2
      omega
    · intro hk
      subst hk
      refine ⟨by omega, (isFinal_iff _ _ (by omega)).2 ?_⟩
      show (a1.finalBlocksMask.setBit (1 - 1)).bit 0 = true
      rw [bit_setBit, l1]
      rfl
  unfold finalCount
  rw [hset]
  rfl

/-- C13 fails on the code.  After `Allocate(8)` and `Free` of its result on a
new allocator no allocation is live, but `Free` has not set the free bit of
block 0 again: block 0 has free bit 0 and belongs to no live allocation. -/
theorem freed_block_stays_in_use :
    ∃ a : MemoryAllocator, Reachable a [] ∧ 0 < BlockCount ∧ ¬ a.isFree 0 := by
  have hreach : Reachable
      ⟨new.freeBlocksMask.clearBit 0, (new.finalBlocksMask.setBit 0).clearBit 0⟩ [] :=
    ReachableBy.free 0 1
      (ReachableBy.alloc 8 0 ReachableBy.init trivial rfl) (List.mem_singleton.2 rfl) rfl
  exact ⟨_, hreach, by decide, by decide⟩

/-- C14 fails on the code.  For the size `2 ^ 32 + 8` the conversion to `int`
leaves 8, so `Allocate` computes one block where `ceil(size / blockWidth)` is
`2 ^ 29 + 1`. -/
theorem blocksNeeded_truncates :
    blocksNeeded 4294967304 = 1 ∧ ceilBlocks 4294967304 = 536870913 := by
  constructor <;> decide

/-- C15 fails on the code as stated.  Block 8 is bit 0 of word 1: in a bitmap
whose only set bit is bit 0 of word 1, `isBlockSet(8)` is true and the bit the
specification names, bit `8 mod 64` of word `8 div 64`, is 0; and `setBlock(8)`
on the empty bitmap writes word 1 and leaves word 0 alone. -/
theorem bit_addressing_counterexample :
    wordBitWidth = 64 ∧
    isBlockSet 8 (fun w => if w = 1 then 1 else 0) = .ok true ∧
    specIsSet 8 (fun w => if w = 1 then 1 else 0) = false ∧
    ∃ m1, setBlock 8 (fun _ => 0) = .ok m1 ∧ m1 0 = 0 ∧ m1 1 = 1 :=
  ⟨by decide, by decide, by decide, _, rfl, by decide, by decide⟩

/-- C15 as amended.  For every block index `i` in `[0, BlockCount)` the three
primitives address bit `i mod sizeof(mask_type)` of word
`i div sizeof(mask_type)`, where `sizeof(mask_type) = 8` is the number of bytes
of a mask word: the `BlockCount` bits are spread over
`BlockCount / sizeof(mask_type)` words, eight in each. -/
theorem bit_addressing (m : Mask) (i : Nat) (h : i < BlockCount) :
    i / sizeofMaskType < MaskWords ∧ MaskWords = BlockCount / sizeofMaskType ∧
    isBlockSet (i : Int) m
      = .ok ((m (i / sizeofMaskType)).testBit (i % sizeofMaskType)) ∧
    setBlock (i : Int) m
      = .ok (m.store (i / sizeofMaskType)
          (m (i / sizeofMaskType) ||| 1 <<< (i % sizeofMaskType))) ∧
    clearBlock (i : Int) m
      = .ok (m.store (i / sizeofMaskType)
          (m (i / sizeofMaskType) &&& notMask (1 <<< (i % sizeofMaskType)))) := by
  have hB : BlockCount = 32768 := rfl
  refine ⟨?_, rfl, isBlockSet_of_lt m i h, setBlock_of_lt m i h, clearBlock_of_lt m i h⟩
  show i / 8 < 4096
  omega

/-- Witness for C15 as amended: block 8 of the empty bitmap. -/
theorem bit_addressing_witness :
    8 < BlockCount ∧
    (8 / sizeofMaskType < MaskWords ∧ MaskWords = BlockCount / sizeofMaskType ∧
    isBlockSet ((8 : Nat) : Int) (fun _ => 0)
      = .ok (((fun _ => 0 : Mask) (8 / sizeofMaskType)).testBit (8 % sizeofMaskType)) ∧
    setBlock ((8 : Nat) : Int) (fun _ => 0)
      = .ok (Mask.store (fun _ => 0) (8 / sizeofMaskType)
          ((fun _ => 0 : Mask) (8 / sizeofMaskType) ||| 1 <<< (8 % sizeofMaskType))) ∧
    clearBlock ((8 : Nat) : Int) (fun _ => 0)
      = .ok (Mask.store (fun _ => 0) (8 / sizeofMaskType)
          ((fun _ => 0 : Mask) (8 / sizeofMaskType)
            &&& notMask (1 <<< (8 % sizeofMaskType))))) :=
  ⟨by decide, bit_addressing (fun _ => 0) 8 (by decide)⟩

/-- C16 fails on the code.  On a new allocator `Allocate(8)` takes block 0,
`Allocate(0)` returns block 1 without marking a block, and `Allocate(8)` takes
block 1; every result lies in the pool.  `Free` of the empty allocation at
block 1 clears final bit 1, which belongs to the live allocation occupying
`[1, 1]`.  `Free` of that allocation then finds no final bit: its walk leaves
`[1, 1]`, passes the end of the pool and reads the final bitmap at block
32768. -/
theorem Free_of_live_allocation_leaves_it :
    ∃ a1 a2 a3 a4 : MemoryAllocator,
      Allocate new 8 = .ok (a1, Ptr.block 0) ∧ 0 + ceilBlocks 8 ≤ BlockCount ∧
      Allocate a1 0 = .ok (a2, Ptr.block 1) ∧ 1 + ceilBlocks 0 ≤ BlockCount ∧
      Allocate a2 8 = .ok (a3, Ptr.block 1) ∧ 1 + ceilBlocks 8 ≤ BlockCount ∧
      Reachable a3 [(1, 1), (1, 0), (0, 1)] ∧
      Free a3 (Ptr.block 1) = .ok a4 ∧
      Reachable a4 [(1, 1), (0, 1)] ∧
      Free a4 (Ptr.block 1) = .outOfBounds 32768 := by
  have hB : BlockCount = 32768 := rfl
  obtain ⟨a1, hA1, hf1, hl1⟩ := Allocate_at new 8 1 0 (by decide) (by omega) (by omega)
    (fun k _ _ => new_free_bit k) (fun j hj => by omega)
  have f1 : ∀ k, a1.freeBlocksMask.bit k = decide (1 ≤ k) := by
    intro k
    rw [hf1, new_free_bit, Bool.true_and, ← decide_not]
    exact decide_eq_decide.2 (by omega)
  have l1 : ∀ k, a1.finalBlocksMask.bit k = decide (k = 0) := by
    intro k
    rw [hl1, new_final_bit, Bool.false_or]
  have hA2 := Allocate_zero_tail a1 0 1 (by decide) (by omega) (by omega)
    (by rw [f1, decide_eq_false_iff_not]; omega)
    (fun k hk1 _ => by rw [f1, decide_eq_true_eq]; omega)
  generalize ha2 : (⟨a1.freeBlocksMask, a1.finalBlocksMask.setBit (1 - 1)⟩ : MemoryAllocator)
    = a2 at hA2
  have f2 : ∀ k, a2.freeBlocksMask.bit k = decide (1 ≤ k) := by
    intro k
    rw [← ha2]
    exact f1 k
  have l2 : ∀ k, a2.finalBlocksMask.bit k = decide (k = 0) := by
    intro k
    rw [← ha2]
    show (a1.finalBlocksMask.setBit (1 - 1)).bit k = _
    rw [bit_setBit, l1, ← Bool.decide_or]
    exact decide_eq_decide.2 (by omega)
  obtain ⟨a3, hA3, hf3, hl3⟩ := Allocate_at a2 8 1 1 (by decide) (by omega) (by omega)
    (fun k h1 h2 => by rw [f2, decide_eq_true_eq]; omega)
    (fun j hj hr => by
      have h := hr j (le_refl j) (by omega)
      rw [f2, decide_eq_true_eq] at h
      omega)
  have l3 : ∀ k, a3.finalBlocksMask.bit k = decide (k = 0 ∨ k = 1) := by
    intro k
    rw [hl3, l2, ← Bool.decide_or]
  obtain ⟨a4, hF4, _, hl4⟩ := Free_live a3 1 1 (le_refl 1) (by omega)
    (fun k h1 h2 => by omega) (by rw [l3, decide_eq_true_eq]; omega)
  have l4 : ∀ k, a4.finalBlocksMask.bit k = decide (k = 0) := by
    intro k
    rw [hl4, l3, ← decide_not, ← Bool.decide_and]
    exact decide_eq_decide.2 (by omega)
  have hO := Free_overrun a4 1 (by omega)
    (fun k hk1 _ => by rw [l4, decide_eq_false_iff_not]; omega)
  have hreach3 : Reachable a3 [(1, 1), (1, 0), (0, 1)] :=
    ReachableBy.alloc 8 1
      (ReachableBy.alloc 0 1 (ReachableBy.alloc 8 0 ReachableBy.init trivial hA1) trivial hA2)
      trivial hA3
  have hreach4 : Reachable a4 [(1, 1), (0, 1)] :=
    ReachableBy.free 1 0 hreach3 (by decide) hF4
  rw [Nat.cast_zero] at hA1
  rw [Nat.cast_one] at hA2 hA3 hF4 hO
  exact ⟨a1, a2, a3, a4, hA1, by decide, hA2, by decide, hA3, by decide, hreach3, hF4,
    hreach4, hO⟩

/-- C17 fails on the code.  A new allocator is a reachable state, and for
size 0 `Allocate` calls `setBlock` with the index `endIndex - 1 = -1`, which is
not in `[0, BlockCount)`: the call indexes the final mask array out of
bounds. -/
theorem Allocate_passes_negative_index :
    Reachable new [] ∧ ¬ ((0 : Int) ≤ -1 ∧ (-1 : Int) < (BlockCount : Int)) ∧
      setBlock (-1) new.finalBlocksMask = .outOfBounds (-1) ∧
      Allocate new 0 = .outOfBounds (-1) :=
  ⟨ReachableBy.init, by omega,
    setBlock_out new.finalBlocksMask (-1) (Or.inl (by omega)) (by omega) (by omega),
    Allocate_zero_blocks new 0 (by decide) new_free_bit⟩

/-- C18 fails on the code.  With `a = 8` and `b = 2 ^ 32` both calls of
`Allocate` on a new allocator return non-null (`A` is block 0, `B` is block 1,
directly behind `A`), but `b`, truncated to `int`, needs no block, so `B` marks
nothing.  After `Free(A)` no final bit is left and the second `Free(A)` does not
stop in `B`: it walks to the end of the pool and reads the final bitmap at
block 32768. -/
theorem double_free_runs_through_pool :
    ∃ a1 a2 a3 : MemoryAllocator,
      1 ≤ 8 ∧ 1 ≤ 4294967296 ∧
      Allocate new 8 = .ok (a1, Ptr.block 0) ∧
      Allocate a1 4294967296 = .ok (a2, Ptr.block 1) ∧
      Free a2 (Ptr.block 0) = .ok a3 ∧
      Free a3 (Ptr.block 0) = .outOfBounds 32768 := by
  have hB : BlockCount = 32768 := rfl
  obtain ⟨a1, hA1, hf1, hl1⟩ := Allocate_at new 8 1 0 (by decide) (by omega) (by omega)
    (fun k _ _ => new_free_bit k) (fun j hj => by omega)
  have f1 : ∀ k, a1.freeBlocksMask.bit k = decide (1 ≤ k) := by
    intro k
    rw [hf1, new_free_bit, Bool.true_and, ← decide_not]
    exact decide_eq_decide.2 (by omega)
  have l1 : ∀ k, a1.finalBlocksMask.bit k = decide (k = 0) := by
    intro k
    rw [hl1, new_final_bit, Bool.false_or]
  have hA2 := Allocate_zero_tail a1 4294967296 1 (by decide) (by omega) (by omega)
    (by rw [f1, decide_eq_false_iff_not]; omega)
    (fun k hk1 _ => by rw [f1, decide_eq_true_eq]; omega)
  generalize ha2 : (⟨a1.freeBlocksMask, a1.finalBlocksMask.setBit (1 - 1)⟩ : MemoryAllocator)
    = a2 at hA2
  have l2 : ∀ k, a2.finalBlocksMask.bit k = decide (k = 0) := by
    intro k
    rw [← ha2]
    show (a1.finalBlocksMask.setBit (1 - 1)).bit k = _
    rw [bit_setBit, l1, ← Bool.decide_or]
    exact decide_eq_decide.2 (by omega)
  obtain ⟨a3, hF3, _, hl3⟩ := Free_live a2 0 0 (le_refl 0) (by omega)
    (fun k h1 h2 => by omega) (by rw [l2, decide_eq_true_eq])
  have l3 : ∀ k, a3.finalBlocksMask.bit k = false := by
    intro k
    rw [hl3, l2]
    cases decide (k = 0) <;> rfl
  have hO := Free_overrun a3 0 (by omega) (fun k _ _ => l3 k)
  rw [Nat.cast_zero] at hA1 hF3 hO
  rw [Nat.cast_one] at hA2
  exact ⟨a1, a2, a3, by decide, by decide, hA1, hA2, hF3, hO⟩

/-- C19.  The word array behaves as `BlockCount` independent bits: for block
indices `i`, `j` in `[0, BlockCount)` the word index of `i` lies inside the
mask array; after `setBlock(i)` the test `isBlockSet(i)` is true, after
`clearBlock(i)` it is false, and both leave `isBlockSet(j)` as it was for every
`j ≠ i`. -/
theorem bitmap_independent_bits (m : Mask) (i j : Nat)
    (hi : i < BlockCount) (hj : j < BlockCount) :
    toSizeT (i : Int) / sizeofMaskType < BlockCount / sizeofMaskType ∧
    (∃ m1, setBlock (i : Int) m = .ok m1 ∧ isBlockSet (i : Int) m1 = .ok true ∧
      (j ≠ i → isBlockSet (j : Int) m1 = isBlockSet (j : Int) m)) ∧
    (∃ m2, clearBlock (i : Int) m = .ok m2 ∧ isBlockSet (i : Int) m2 = .ok false ∧
      (j ≠ i → isBlockSet (j : Int) m2 = isBlockSet (j : Int) m)) := by
  have hB : BlockCount = 32768 := rfl
  refine ⟨?_, ⟨m.setBit i, setBlock_of_lt m i hi, ?_, ?_⟩,
    ⟨m.clearBit i, clearBlock_of_lt m i hi, ?_, ?_⟩⟩
  · rw [toSizeT_natCast i (by omega)]
    show i / 8 < 32768 / 8
    omega
  · rw [isBlockSet_of_lt _ i hi, bit_setBit]
    simp
  · intro hne
    rw [isBlockSet_of_lt _ j hj, isBlockSet_of_lt _ j hj, bit_setBit, decide_eq_false hne]
    simp
  · rw [isBlockSet_of_lt _ i hi, bit_clearBit]
    simp
  · intro hne
    rw [isBlockSet_of_lt _ j hj, isBlockSet_of_lt _ j hj, bit_clearBit, decide_eq_false hne]
    simp

/-- Witness for C19: blocks 9 and 8, which share word 1, in the empty
bitmap. -/
theorem bitmap_independent_bits_witness :
    (9 < BlockCount ∧ 8 < BlockCount) ∧
    (toSizeT ((9 : Nat) : Int) / sizeofMaskType < BlockCount / sizeofMaskType ∧
    (∃ m1, setBlock ((9 : Nat) : Int) (fun _ => 0) = .ok m1 ∧
      isBlockSet ((9 : Nat) : Int) m1 = .ok true ∧
      (8 ≠ 9 → isBlockSet ((8 : Nat) : Int) m1 = isBlockSet ((8 : Nat) : Int) (fun _ => 0))) ∧
    (∃ m2, clearBlock ((9 : Nat) : Int) (fun _ => 0) = .ok m2 ∧
      isBlockSet ((9 : Nat) : Int) m2 = .ok false ∧
      (8 ≠ 9 → isBlockSet ((8 : Nat) : Int) m2
        = isBlockSet ((8 : Nat) : Int) (fun _ => 0)))) :=
  ⟨⟨by decide, by decide⟩, bitmap_independent_bits (fun _ => 0) 9 8 (by decide) (by decide)⟩

end Blockmask
